import Mathlib

/-!
# whisper-alsa: capture-to-transcription pipeline

A shallow embedding of `src/transcriber.cpp`, `src/transcriber.hpp`,
`src/whisper.cpp` and `src/capture.hpp`, followed by the properties proved
about it.

Conventions of the embedding

* Unsigned machine integers are natural numbers; every operation that can
  wrap carries its modulus (`% 2 ^ 32` for `uint32_t`, `% 2 ^ 64` for
  `size_t` and `snd_pcm_uframes_t`).
* A `float` is the rational number it denotes.  The three float operations
  of the decoder (integer conversion, division, addition) are the exact
  operation followed by `f32_round`, round-to-nearest-even on a 24 bit
  significand (IEEE-754 binary32, exponent range not modelled: every value
  of the decoder lies between `2 ^ (-31)` and `2 ^ 8` in magnitude).
* Calls that leave the repository (the ALSA read, the whisper engine) are
  inputs of the step that makes them: `ReadResult`, `EngineResult`.
* The two worker loops are given one iteration at a time (`capture_iter`,
  `transcription_iter`); `run_moves` interleaves them.
-/

namespace WhisperAlsa

/-! ## Single precision arithmetic -/

/-- Nearest integer to a rational, a tie going to the even neighbour. -/
def round_half_even (q : ℚ) : ℤ :=
  let f := ⌊q⌋
  let r := q - f
  if r < 1 / 2 then f
  else if 1 / 2 < r then f + 1
  else if f % 2 = 0 then f else f + 1

/-- Rounding of a rational to the nearest binary32 value: the value is scaled
so that its magnitude lies in `[2 ^ 23, 2 ^ 24)`, rounded to an integer and
scaled back. -/
def f32_round (q : ℚ) : ℚ :=
  if q = 0 then 0
  else
    let e : ℤ := Int.log 2 |q| - 23
    (round_half_even (q / 2 ^ e) : ℚ) * 2 ^ e

/-- The conversion `static_cast<float>(pcm)` of a signed integer. -/
def f32_of_int (n : ℤ) : ℚ := f32_round n

/-- Float division `a / b`. -/
def f32_div (a b : ℚ) : ℚ := f32_round (a / b)

/-- Float addition `a + b`. -/
def f32_add (a b : ℚ) : ℚ := f32_round (a + b)

/-! ## Integer conversions -/

/-- Conversion of a non-negative value to `int16_t` (two's complement). -/
def to_int16 (v : ℕ) : ℤ :=
  if v % 2 ^ 16 < 2 ^ 15 then ((v % 2 ^ 16 : ℕ) : ℤ) else ((v % 2 ^ 16 : ℕ) : ℤ) - 2 ^ 16

/-- Conversion of a 32 bit pattern to `int32_t` (two's complement). -/
def to_int32 (v : ℕ) : ℤ :=
  if v % 2 ^ 32 < 2 ^ 31 then ((v % 2 ^ 32 : ℕ) : ℤ) else ((v % 2 ^ 32 : ℕ) : ℤ) - 2 ^ 32

/-! ## Data model -/

/-- The fields of `Config` read by `Transcriber::start_capture`. -/
structure Config where
  channels_ : ℕ
  files_num_ : ℕ
  file_duration_ : ℕ
  silence_threshold_ : ℚ

/-- The part of `Whisper` the pipeline touches: the prompt tokens carried
between segments, the accumulated text and whether a context is loaded. -/
structure Whisper where
  prompt_tokens_ : List ℤ
  output_text_ : String
  ctx_ : Bool

/-- Member `keep_samples_{1600}` of `Transcriber`, never assigned. -/
def keep_samples_ : ℕ := 1600

/-- Member `rate_{16000}` of `Transcriber`, never assigned. -/
def rate_ : ℕ := 16000

/-- The mutable members of `Transcriber`.  `buffer_` is the raw capture
buffer as a map from byte offset to byte, `output_bufs_` the map from slot
index to sample vector (an absent key reads as the empty vector, which is
what `operator[]` creates).  A `std::future<bool>` is `none` while it has no
shared state and `some b` while it refers to a task whose lambda returns `b`
when it ends. -/
structure Transcriber where
  file_duration_ : ℕ
  files_num_ : ℕ
  channels_ : ℕ
  silence_threshold_ : ℚ
  chunk_samples_ : ℕ
  bytes_per_frame_ : ℕ
  buffer_samples_ : ℕ
  buffer_offset_ : ℕ
  silence_samples_ : ℕ
  tmp_buf_ : List ℚ
  output_bufs_ : ℕ → List ℚ
  file_counter_ : ℕ
  file_id_ : ℕ
  buffer_ : ℕ → ℕ
  running_ : Bool
  whisper_ : Whisper
  res_trans_ : Option Bool
  res_capts_ : Option Bool

/-- The answer of one `capture_.read(ptr)`: the returned count and the bytes
it stored from `ptr` on. -/
structure ReadResult where
  ret : ℤ
  data : List ℕ

/-! ## Producer: `open_files`, `save_files`, `close_files` -/

/-- `Transcriber::open_files`. -/
def open_files (st : Transcriber) (_file_id : ℕ) : Transcriber :=
  { st with tmp_buf_ := [], silence_samples_ := 0 }

/-- The byte `*(in + k)` of the capture buffer. -/
def byte_at (buf : ℕ → ℕ) (i : ℕ) : ℕ := buf i % 256

/-- The `switch (sample_size)` of `save_files`: the value added to `pcmFloat`
for the channel sample starting at byte `i`, or nothing for a sample size
without a case. -/
def decode_sample (buf : ℕ → ℕ) (sample_size i : ℕ) : Option ℚ :=
  if sample_size = 2 then
    let pcm := to_int16 (byte_at buf i ||| (byte_at buf (i + 1) <<< 8))
    some (f32_div (f32_of_int pcm) 32768)
  else if sample_size = 3 then
    let v := byte_at buf i ||| (byte_at buf (i + 1) <<< 8) ||| (byte_at buf (i + 2) <<< 16)
    let pcm := to_int32 (if byte_at buf (i + 2) &&& 0x80 ≠ 0 then v ||| (0xFF <<< 24) else v)
    some (f32_div (f32_of_int pcm) 8388608)
  else if sample_size = 4 then
    let pcm := to_int32 (byte_at buf i ||| (byte_at buf (i + 1) <<< 8)
      ||| (byte_at buf (i + 2) <<< 16) ||| (byte_at buf (i + 3) <<< 24))
    some (f32_div (f32_of_int pcm) 2147483648)
  else none

/-- The inner loop of `save_files` over the channels of one frame: the mono
sample `pcmFloat` of frame `buffer_offset_ + offset`. -/
def decode_frame (st : Transcriber) (offset : ℕ) : ℚ :=
  let sample_size := st.bytes_per_frame_ / st.channels_
  (List.range st.channels_).foldl
    (fun pcmFloat ch =>
      match decode_sample st.buffer_ sample_size
          ((st.buffer_offset_ + offset) * st.bytes_per_frame_ + ch * sample_size) with
      | some x => f32_add pcmFloat x
      | none => pcmFloat)
    0

/-- One turn of the outer loop of `save_files`: decode a frame, count it
when silent, append it. -/
def save_frame (st : Transcriber) (offset : ℕ) : Transcriber :=
  let pcmFloat := decode_frame st offset
  { st with
    silence_samples_ :=
      if |pcmFloat| < st.silence_threshold_ then (st.silence_samples_ + 1) % 2 ^ 32
      else st.silence_samples_
    tmp_buf_ := st.tmp_buf_ ++ [pcmFloat] }

/-- `Transcriber::save_files`. -/
def save_files (st : Transcriber) (_file_id : ℕ) : Transcriber :=
  (List.range st.chunk_samples_).foldl save_frame st

/-- The admission test of `close_files`, `buffer_samples_ - silence_samples_ >
keep_samples_`, in `size_t` arithmetic. -/
def admitted (st : Transcriber) : Bool :=
  decide (keep_samples_ < (st.buffer_samples_ + 2 ^ 64 - st.silence_samples_) % 2 ^ 64)

/-- Assignment to `output_bufs_[file_id]`. -/
def set_output (st : Transcriber) (file_id : ℕ) (v : List ℚ) : Transcriber :=
  { st with output_bufs_ := fun i => if i = file_id then v else st.output_bufs_ i }

/-- `Transcriber::close_files`: the slot is cleared, then the staged samples
are copied behind its (empty) content when the admission test passes. -/
def close_files (st : Transcriber) (file_id : ℕ) : Transcriber :=
  let st1 := set_output st file_id []
  if admitted st1 then set_output st1 file_id (st1.output_bufs_ file_id ++ st1.tmp_buf_)
  else st1

/-! ## Producer: the capture loop -/

/-- The sample budget of a slot, `rate_ * file_duration_ / chunk_samples_ *
chunk_samples_`: the product is taken in 32 bits, the rest in 64. -/
def compute_buffer_samples (file_duration chunk_samples : ℕ) : ℕ :=
  (rate_ * file_duration) % 2 ^ 32 / chunk_samples * chunk_samples % 2 ^ 64

/-- The effect of `capture_.read(buffer_.get() + buffer_offset_ *
bytes_per_frame_)` on the capture buffer. -/
def store_read (st : Transcriber) (r : ReadResult) : Transcriber :=
  let base := st.buffer_offset_ * st.bytes_per_frame_
  { st with
    buffer_ := fun i =>
      if base ≤ i ∧ i < base + r.data.length then r.data.getD (i - base) 0 else st.buffer_ i }

/-- A successful read followed by `save_files(file_id_)` and
`buffer_offset_ += chunk_samples_`. -/
def capture_append (st : Transcriber) (r : ReadResult) : Transcriber :=
  let st1 := save_files (store_read st r) st.file_id_
  { st1 with buffer_offset_ := (st1.buffer_offset_ + st1.chunk_samples_) % 2 ^ 32 }

/-- The test `(buffer_offset_ + chunk_samples_) > buffer_samples_`. -/
def buffer_full (st : Transcriber) : Bool :=
  decide (st.buffer_samples_ < (st.buffer_offset_ + st.chunk_samples_) % 2 ^ 64)

/-- The rotation branch of the capture loop: `close_files`, index advance,
counter increment, offset reset, `open_files`.  The remainder by
`files_num_` is below 255 whenever it is defined, so its conversion back to
`uint8_t` changes nothing. -/
def capture_rotate (st : Transcriber) : Transcriber :=
  let st1 := close_files st st.file_id_
  let st2 := { st1 with
    file_id_ := (st1.file_id_ + 1) % st1.files_num_
    file_counter_ := (st1.file_counter_ + 1) % 2 ^ 32 }
  let st3 := { st2 with buffer_offset_ := 0 }
  open_files st3 st3.file_id_

/-- What one turn of the capture loop did. -/
inductive Outcome
  | exited
  | appended
  | rotated
  deriving DecidableEq, Repr

/-- One turn of `while (running_)` in the capture task with the answer `r` of
its read. -/
def capture_iter (st : Transcriber) (r : ReadResult) : Transcriber × Outcome :=
  if st.running_ = false then (st, Outcome.exited)
  else if r.ret < 0 then (store_read st r, Outcome.exited)
  else
    let st1 := capture_append st r
    if buffer_full st1 then (capture_rotate st1, Outcome.rotated)
    else (st1, Outcome.appended)

/-- The capture loop over a sequence of read answers, up to its exit. -/
def capture_run (st : Transcriber) : List ReadResult → Transcriber
  | [] => st
  | r :: rs =>
    match capture_iter st r with
    | (st1, Outcome.exited) => st1
    | (st1, _) => capture_run st1 rs

/-! ## The recognition engine wrapper -/

/-- One segment reported by the engine after `whisper_full`: its text (absent
for a null pointer) and the ids of its tokens. -/
structure EngineSegment where
  text : Option String
  tokens : List ℤ

/-- The answer of one `whisper_full` call. -/
structure EngineResult where
  ret : ℤ
  segments : List EngineSegment

/-- `Whisper::terminate`. -/
def Whisper.terminate (w : Whisper) : Whisper :=
  if w.ctx_ then { w with prompt_tokens_ := [], ctx_ := false } else w

/-- `Whisper::init`; `model_ok` tells whether the model file loads. -/
def Whisper.init (w : Whisper) (model_ok : Bool) : Bool × Whisper :=
  let w1 := if w.ctx_ then w.terminate else w
  let w2 := { w1 with output_text_ := "" }
  if model_ok then (true, { w2 with ctx_ := true }) else (false, { w2 with ctx_ := false })

/-- `Whisper::segment`. -/
def Whisper.segment (w : Whisper) : Whisper :=
  { w with prompt_tokens_ := [] }

/-- The body of the segment loop of `Whisper::process_result`. -/
def process_segment (w : Whisper) (sg : EngineSegment) : Whisper :=
  match sg.text with
  | none => w
  | some text =>
    let w1 := { w with prompt_tokens_ := w.prompt_tokens_ ++ sg.tokens }
    let text1 := if text.front = ' ' then text.drop 1 else text
    if text1 ≠ "[BLANK_AUDIO]" then { w1 with output_text_ := w1.output_text_ ++ text1 ++ "\n" }
    else w1

/-- `Whisper::process_result`. -/
def Whisper.process_result (w : Whisper) (segments : List EngineSegment) : Whisper :=
  segments.foldl process_segment { w with prompt_tokens_ := [] }

/-- `Whisper::transribe` given the answer of its `whisper_full` call. -/
def Whisper.transribe (w : Whisper) (eng : EngineResult) : Bool × Whisper :=
  if eng.ret ≠ 0 then (false, w) else (true, w.process_result eng.segments)

/-- `Whisper::get_text`. -/
def Whisper.get_text (w : Whisper) : String := w.output_text_

/-- `Whisper::clear_text`. -/
def Whisper.clear_text (w : Whisper) : Whisper := { w with output_text_ := "" }

/-! ## Consumer: the transcription loop -/

/-- The locals of the transcription task. -/
structure TransLoop where
  current_file_conter : ℕ
  file_id : ℕ

/-- What a turn of the transcription loop did to the outside: the overrun
log line, a `whisper_full` call with its sample block, sample count and
prompt tokens, or a `segment()` call. -/
inductive Event
  | overrun (file_id : ℕ)
  | engine_call (samples : List ℚ) (samples_in : ℕ) (prompt : List ℤ)
  | context_reset
  deriving DecidableEq

/-- The predicate of `whisper_cond_.wait`. -/
def wake_pred (st : Transcriber) (c : TransLoop) : Bool :=
  !st.running_ || (decide (0 < st.file_counter_) && decide (c.current_file_conter ≠ st.file_counter_))

/-- The part of a turn of the transcription loop after `if (!running_)
break;`: the overrun test, the admission-result check and the cursor
advance.  `samples_in` is the `uint32_t` parameter of `transribe`. -/
def transcription_handle (st : Transcriber) (c : TransLoop) (eng : EngineResult) :
    Transcriber × TransLoop × List Event :=
  let next := { c with file_id := (c.file_id + 1) % st.files_num_ }
  if c.file_id = st.file_id_ then
    (st, next, [Event.overrun c.file_id])
  else
    let samples_num := (st.output_bufs_ c.file_id).length
    if keep_samples_ < samples_num then
      let samples_in := samples_num % 2 ^ 32
      ({ st with whisper_ := (st.whisper_.transribe eng).2 }, next,
        [Event.engine_call ((st.output_bufs_ c.file_id).take samples_in) samples_in
          st.whisper_.prompt_tokens_])
    else
      ({ st with whisper_ := st.whisper_.segment }, next, [Event.context_reset])

/-- One turn of the transcription loop.  `none` while the wait predicate is
false; otherwise the new state, the events, and whether the loop goes on
(`false` after `break`, which is followed by `whisper_.terminate()`). -/
def transcription_iter (st : Transcriber) (c : TransLoop) (eng : EngineResult) :
    Option (Transcriber × TransLoop × List Event × Bool) :=
  if wake_pred st c then
    let c1 := { c with current_file_conter := (c.current_file_conter + 1) % 2 ^ 32 }
    if st.running_ = false then
      some ({ st with whisper_ := st.whisper_.terminate }, c1, [], false)
    else
      let res := transcription_handle st c1 eng
      some (res.1, res.2.1, res.2.2, true)
  else none

/-! ## Controller -/

/-- What `start_capture` learns from outside: whether `capture_.open`
succeeds, the frame size the capture reports, the content of the freshly
allocated buffer, whether `whisper_.init()` succeeds in the transcription
task, and whether that call is still under way when the grace period of one
second ends. -/
structure StartEnv where
  open_ok : Bool
  bytes_per_frame : ℕ
  fresh_buffer : ℕ → ℕ
  model_ok : Bool
  init_late : Bool

/-- The value the transcription lambda returns: `false` when
`whisper_.init()` fails, `true` after its loop. -/
def transcription_task_ret (init_ok : Bool) : Bool :=
  if init_ok = false then false else true

/-- The value the capture lambda returns, `true` on every path. -/
def capture_task_ret : Bool := true

/-- `Transcriber::start_capture` up to the launch of the two tasks.  The
transcription task has ended when `wait_for(1s)` returns exactly if its
`whisper_.init()` failed before the grace period was over. -/
def start_capture (config : Config) (env : StartEnv) (st : Transcriber) : Bool × Transcriber :=
  if st.running_ then (true, st)
  else
    let st1 := { st with
      channels_ := config.channels_
      files_num_ := config.files_num_
      file_duration_ := config.file_duration_
      silence_threshold_ := config.silence_threshold_ }
    if env.open_ok = false then (false, st1)
    else
      let st2 := { st1 with
        bytes_per_frame_ := env.bytes_per_frame % 256
        chunk_samples_ := 8000 }
      let st3 := { st2 with
        buffer_samples_ := compute_buffer_samples st2.file_duration_ st2.chunk_samples_
        buffer_ := env.fresh_buffer }
      let st4 := { st3 with buffer_offset_ := 0, file_id_ := 0, file_counter_ := 0, running_ := true }
      let st5 := open_files st4 st4.file_id_
      let w := st5.whisper_.init env.model_ok
      let st6 := { st5 with whisper_ := w.2, res_trans_ := some (transcription_task_ret w.1) }
      if w.1 = false ∧ env.init_late = false then (false, { st6 with running_ := false })
      else (true, { st6 with res_capts_ := some capture_task_ret })

/-- The state of a `Transcriber` after construction and `init()`:
the member initialisers of the class (`1e-4` as the float it denotes);
`silence_samples_` has none and starts with an indeterminate value. -/
def initial (indeterminate : ℕ) : Transcriber :=
  { file_duration_ := 5
    files_num_ := 4
    channels_ := 4
    silence_threshold_ := 13743895 / 137438953472
    chunk_samples_ := 0
    bytes_per_frame_ := 0
    buffer_samples_ := 0
    buffer_offset_ := 0
    silence_samples_ := indeterminate % 2 ^ 32
    tmp_buf_ := []
    output_bufs_ := fun _ => []
    file_counter_ := 0
    file_id_ := 0
    buffer_ := fun _ => 0
    running_ := false
    whisper_ := { prompt_tokens_ := [], output_text_ := "", ctx_ := false }
    res_trans_ := none
    res_capts_ := none }

/-- What `stop_capture` does to the outside, in order. -/
inductive StopEvent
  | join_trans
  | join_capts
  | close_capture
  deriving DecidableEq, Repr

/-- What `stop_capture` meets outside at the moment it clears `running_`:
whether the capture task has already left its loop and made the one
`notify_one` that follows the loop (it does so after a read error), and
whether the transcription task is blocked in `whisper_cond_.wait`. -/
structure StopEnv where
  capture_notified : Bool
  consumer_waiting : Bool

/-- `Transcriber::stop_capture`: the result, the object afterwards and the
joins and the close it made, or `none` when the call does not return.
`get()` hands out the value of the task and leaves the future without shared
state; on a future without shared state it is undefined.  `stop_capture`
itself never notifies `whisper_cond_`: a transcription task that is in its
loop (its lambda returns true) and blocked in the wait is woken only by the
capture task, so if that task has already made its last `notify_one` the
first `get()` never returns.  A transcription task that is not blocked sees
`!running_` at its next wait, and a capture task still in its loop leaves it
on `!running_` and notifies.  What the tasks still do before they end are
their own turns. -/
def stop_capture (env : StopEnv) (st : Transcriber) :
    Option (Bool × Transcriber × List StopEvent) :=
  if st.running_ = false then some (true, st, [])
  else
    let st1 := { st with running_ := false }
    match st1.res_trans_ with
    | none => none
    | some ret_trans =>
      -- `bool ret = res_trans_.get();`
      if ret_trans = true ∧ env.consumer_waiting = true ∧ env.capture_notified = true then none
      else
        let st2 := { st1 with res_trans_ := none }
        match st2.res_capts_ with
        | none => none
        | some ret =>
          -- `ret = res_capts_.get();` replaces the value of the first `get()`
          let st3 := { st2 with res_capts_ := none }
          some (ret, st3, [StopEvent.join_trans, StopEvent.join_capts, StopEvent.close_capture])

/-- `Transcriber::terminate`. -/
def terminate (env : StopEnv) (st : Transcriber) :
    Option (Bool × Transcriber × List StopEvent) :=
  stop_capture env st

/-- `Transcriber::get_text`: the result and the caller's string. -/
def get_text (st : Transcriber) (out : String) : Bool × String :=
  if st.running_ = false then (false, out) else (true, st.whisper_.get_text)

/-- `Transcriber::clear_text`. -/
def clear_text (st : Transcriber) : Bool × Transcriber :=
  if st.running_ = false then (false, st)
  else (true, { st with whisper_ := st.whisper_.clear_text })

/-! ## Interleavings of the two tasks -/

/-- The shared object together with the locals of the transcription task. -/
structure Pipeline where
  t : Transcriber
  c : TransLoop

/-- A move of the pipeline: a turn of the capture loop whose read succeeded,
or a turn of the transcription loop. -/
inductive Move
  | capture (r : ReadResult)
  | transcribe (eng : EngineResult)

/-- The pipeline after a move, `none` when the move cannot be made: the
pipeline is stopped, the read failed, or the transcription task is still
waiting. -/
def apply_move (p : Pipeline) : Move → Option Pipeline
  | Move.capture r =>
    if p.t.running_ = true ∧ 0 ≤ r.ret then some { p with t := (capture_iter p.t r).1 } else none
  | Move.transcribe eng =>
    if p.t.running_ = true then
      match transcription_iter p.t p.c eng with
      | some res => some { t := res.1, c := res.2.1 }
      | none => none
    else none

/-- The pipeline after a sequence of moves. -/
def run_moves (p : Pipeline) : List Move → Option Pipeline
  | [] => some p
  | mv :: rest =>
    match apply_move p mv with
    | some p1 => run_moves p1 rest
    | none => none

/-! ## States of a started pipeline -/

/-- The sizes `start_capture` gives a pipeline: the chunk size it sets, a
16 bit segment duration and the slot budget computed from them. -/
def Configured (st : Transcriber) : Prop :=
  st.chunk_samples_ = 8000 ∧ st.file_duration_ < 2 ^ 16 ∧
  st.buffer_samples_ = compute_buffer_samples st.file_duration_ st.chunk_samples_

/-- A freshly opened slot: nothing staged, offset zero. -/
def Fresh (st : Transcriber) : Prop :=
  st.buffer_offset_ = 0 ∧ st.tmp_buf_ = []

/-- The fields a turn of `save_files` leaves alone. -/
def SameFrame (a b : Transcriber) : Prop :=
  a.file_duration_ = b.file_duration_ ∧ a.files_num_ = b.files_num_ ∧
  a.chunk_samples_ = b.chunk_samples_ ∧ a.buffer_samples_ = b.buffer_samples_ ∧
  a.buffer_offset_ = b.buffer_offset_ ∧ a.file_counter_ = b.file_counter_ ∧
  a.file_id_ = b.file_id_ ∧ a.running_ = b.running_ ∧ a.output_bufs_ = b.output_bufs_ ∧
  a.whisper_ = b.whisper_

/-- A running, configured capture loop whose active slot holds `a` of its `m`
chunks. -/
def SlotAt (st : Transcriber) (m a : ℕ) : Prop :=
  Configured st ∧ st.running_ = true ∧ st.buffer_samples_ = m * st.chunk_samples_ ∧
  st.buffer_offset_ = a * st.chunk_samples_ ∧ st.tmp_buf_.length = a * st.chunk_samples_

/-- The rotation bookkeeping after `t` rotations. -/
def Counted (st : Transcriber) (t : ℕ) : Prop :=
  st.file_counter_ = t % 2 ^ 32 ∧ st.file_id_ = t % st.files_num_

/-- A pipeline started with one channel of 16 bit samples, 4 slots and
1 second segments (two chunks per segment). -/
def started_one : Transcriber :=
  (start_capture ⟨1, 4, 1, 1 / 1000⟩ ⟨true, 2, fun _ => 0, true, false⟩ (initial 0)).2

/-- A pipeline started with one channel of 16 bit samples, 4 slots and
5 second segments (ten chunks per segment). -/
def started_default : Transcriber :=
  (start_capture ⟨1, 4, 5, 1 / 1000⟩ ⟨true, 2, fun _ => 0, true, false⟩ (initial 0)).2

/-- A pipeline started like `started_one` but with silence threshold 0, so
that no sample is counted silent. -/
def started_open : Transcriber :=
  (start_capture ⟨1, 4, 1, 0⟩ ⟨true, 2, fun _ => 0, true, false⟩ (initial 0)).2

/-- A pipeline whose transcription task failed late: `whisper_.init()` was
still loading the model when the grace period ended and failed afterwards,
so `start_capture` returned true and the capture task runs. -/
def started_late_failure : Transcriber :=
  (start_capture ⟨1, 4, 1, 1 / 1000⟩ ⟨true, 2, fun _ => 0, false, true⟩ (initial 0)).2

/-- A failed read: `-EIO`, nothing stored. -/
def read_error : ReadResult :=
  { ret := -5, data := [] }

/-- A successful read of one chunk of 8000 mono 16 bit frames, every sample
`0x4000`. -/
def loud_chunk : ReadResult :=
  { ret := 8000, data := (List.replicate 8000 [0x00, 0x40]).flatten }

/-- A completed slot of the default pipeline as `close_files` meets it: the
full budget staged, none of it counted silent. -/
def full_slot : Transcriber :=
  { started_default with
    tmp_buf_ := List.replicate 80000 (1 / 2)
    silence_samples_ := 0
    buffer_offset_ := 80000 }

/-- A completed slot of the default pipeline that is almost all silence:
1000 loud samples followed by 79000 zero samples, all of the latter counted
silent. -/
def quiet_slot : Transcriber :=
  { started_default with
    tmp_buf_ := List.replicate 1000 (1 / 2) ++ List.replicate 79000 0
    silence_samples_ := 79000
    buffer_offset_ := 80000
    output_bufs_ := fun _ => [1 / 4] }

/-- The pipeline one rotation after `full_slot` was closed. -/
def after_full_slot : Transcriber :=
  capture_rotate full_slot

/-- A pipeline of 4 slots in which the consumer has fallen a lap behind: it
transcribed segment 0 (which left the prompt token 7 and some text) and
then stalled while the producer completed segments 1 to 4, so that the
producer is filling slot 1 again. -/
def lapped : Transcriber :=
  { started_one with
    file_counter_ := 5
    file_id_ := 1
    whisper_ := { prompt_tokens_ := [7], output_text_ := "hello\n", ctx_ := true } }

/-- The locals of the transcription task in `lapped`: one segment seen, the
cursor on slot 1. -/
def lapped_cursor : TransLoop :=
  { current_file_conter := 1, file_id := 1 }

/-- An engine answer: success with one segment of text and one token. -/
def engine_ok : EngineResult :=
  { ret := 0, segments := [{ text := some " world", tokens := [9] }] }

/-- The bytes of frame `buffer_offset_ + offset` in the capture buffer. -/
def frame_bytes (st : Transcriber) (offset : ℕ) : List ℕ :=
  (List.range st.bytes_per_frame_).map
    (fun j => byte_at st.buffer_ ((st.buffer_offset_ + offset) * st.bytes_per_frame_ + j))

/-- The machine epsilon of binary32, `FLT_EPSILON`. -/
def flt_epsilon : ℚ := 1 / 2 ^ 23

/-- A started mono 16 bit pipeline whose capture buffer begins with the
positive full-scale sample `0x7FFF`, little-endian. -/
def full_scale_16 : Transcriber :=
  { started_one with buffer_ := fun i => if i = 0 then 0xFF else if i = 1 then 0x7F else 0 }

/-- The silence test of `save_files`, `std::fabs(pcmFloat) <
silence_threshold_`. -/
def is_silent (threshold x : ℚ) : Bool := decide (|x| < threshold)

/-- The samples one call of `save_files` decodes: frame `buffer_offset_`,
frame `buffer_offset_ + 1`, and so on, `chunk_samples_` of them. -/
def chunk_frames (st : Transcriber) : List ℚ :=
  (List.range st.chunk_samples_).map (decode_frame st)

/-- The silence count is the number of staged samples that pass the silence
test. -/
def Staged (st : Transcriber) : Prop :=
  st.silence_samples_ = st.tmp_buf_.countP (is_silent st.silence_threshold_)

/-! ## Reference definitions of the decoder -/

/-- Reference definition: the number written by little-endian bytes. -/
def ref_le_value : List ℕ → ℕ
  | [] => 0
  | b :: rest => b + 256 * ref_le_value rest

/-- Reference definition: the two's-complement value of a pattern of `bits`
bits. -/
def ref_twos_complement (bits u : ℕ) : ℤ :=
  if u < 2 ^ (bits - 1) then (u : ℤ) else (u : ℤ) - 2 ^ bits

/-- Reference definition: the integer `v_ch` of a channel sample, the
two's-complement value of its little-endian bytes (for three bytes this is
the sign extension from bit 23). -/
def ref_channel_value (bytes : List ℕ) : ℤ :=
  ref_twos_complement (8 * bytes.length) (ref_le_value bytes)

/-- Reference definition: the full scale `F` of a sample size, `2 ^ 15`,
`2 ^ 23` and `2 ^ 31` for 2, 3 and 4 bytes. -/
def ref_full_scale (sample_size : ℕ) : ℚ := 2 ^ (8 * sample_size - 1)

/-- The bytes of the channel sample that starts at byte `i`. -/
def sample_bytes (buf : ℕ → ℕ) (sample_size i : ℕ) : List ℕ :=
  (List.range sample_size).map (fun j => byte_at buf (i + j))

/-- The byte at which the sample of channel `ch` of frame `buffer_offset_ +
offset` starts. -/
def channel_pos (st : Transcriber) (offset ch : ℕ) : ℕ :=
  (st.buffer_offset_ + offset) * st.bytes_per_frame_ + ch * (st.bytes_per_frame_ / st.channels_)

/-- The integers `v_ch` of the channels of frame `buffer_offset_ + offset`,
channel 0 first. -/
def channel_values (st : Transcriber) (offset : ℕ) : List ℤ :=
  (List.range st.channels_).map (fun ch =>
    ref_channel_value
      (sample_bytes st.buffer_ (st.bytes_per_frame_ / st.channels_) (channel_pos st offset ch)))

/-- Reference definition: the mono sample as the exact sum over the
channels of `v_ch / F`. -/
def ref_mono (st : Transcriber) (offset : ℕ) : ℚ :=
  ((channel_values st offset).map
    (fun (v : ℤ) => (v : ℚ) / ref_full_scale (st.bytes_per_frame_ / st.channels_))).sum

/-- A started mono pipeline with 4 byte samples whose capture buffer begins
with the positive full-scale sample `0x7FFFFFFF`, little-endian. -/
def full_scale_32 : Transcriber :=
  { (start_capture ⟨1, 4, 1, 1 / 1000⟩ ⟨true, 4, fun _ => 0, true, false⟩ (initial 0)).2 with
    buffer_ := fun i => if i < 3 then 0xFF else if i = 3 then 0x7F else 0 }

/-- A started two channel pipeline with 2 byte samples whose capture buffer
begins with a frame that holds `0x7FFF`, little-endian, in both channels. -/
def stereo_16 : Transcriber :=
  { (start_capture ⟨2, 4, 1, 1 / 1000⟩ ⟨true, 4, fun _ => 0, true, false⟩ (initial 0)).2 with
    buffer_ := fun i => if i = 0 ∨ i = 2 then 0xFF else if i = 1 ∨ i = 3 then 0x7F else 0 }

/-- A started two channel pipeline with 3 byte samples whose capture buffer
begins with a frame that holds `0x800000`, little-endian, in both channels. -/
def stereo_24 : Transcriber :=
  { (start_capture ⟨2, 4, 1, 1 / 1000⟩ ⟨true, 6, fun _ => 0, true, false⟩ (initial 0)).2 with
    buffer_ := fun i => if i = 2 ∨ i = 5 then 0x80 else 0 }

/-- The invariant of the capture loop at the head of a turn: the loop is
somewhere inside a slot of `m` chunks and the silence count agrees with the
staged samples. -/
def LoopInv (p : Pipeline) (m : ℕ) : Prop :=
  (∃ a, a < m ∧ SlotAt p.t m a) ∧ Staged p.t

/-- The one second pipeline after two successful reads and no consumer
turn. -/
def one_segment_done : Pipeline :=
  { t := capture_run started_one [loud_chunk, loud_chunk], c := ⟨0, 0⟩ }

/-- The invariant of the ring under interleaving: the capture loop is
somewhere inside a slot of `m` chunks and both slot indices are below the
number `n` of slots. -/
def RingInv (p : Pipeline) (m n : ℕ) : Prop :=
  (∃ a, a < m ∧ SlotAt p.t m a) ∧ p.t.files_num_ = n ∧ p.t.file_id_ < n ∧ p.c.file_id < n

/-! ## Properties -/

/-! ### Slot sample budget -/

lemma compute_buffer_samples_eq (D : ℕ) (hD : D < 2 ^ 16) :
    compute_buffer_samples D 8000 = 16000 * D := by
  unfold compute_buffer_samples rate_
  have h1 : 16000 * D % 2 ^ 32 = 16000 * D := Nat.mod_eq_of_lt (by omega)
  have h2 : 16000 * D / 8000 * 8000 = 16000 * D := by omega
  rw [h1, h2]
  exact Nat.mod_eq_of_lt (by omega)

lemma start_capture_ok (config : Config) (env : StartEnv) (st : Transcriber)
    (hrun : st.running_ = false) (hopen : env.open_ok = true) :
    (start_capture config env st).2.chunk_samples_ = 8000 ∧
    (start_capture config env st).2.buffer_samples_ =
      compute_buffer_samples config.file_duration_ 8000 ∧
    (start_capture config env st).2.file_duration_ = config.file_duration_ ∧
    (start_capture config env st).2.files_num_ = config.files_num_ ∧
    (start_capture config env st).2.buffer_offset_ = 0 ∧
    (start_capture config env st).2.tmp_buf_ = [] ∧
    (start_capture config env st).2.silence_samples_ = 0 ∧
    (start_capture config env st).2.file_id_ = 0 ∧
    (start_capture config env st).2.file_counter_ = 0 := by
  unfold start_capture open_files
  simp only [hrun, hopen]
  cases env.model_ok <;> cases env.init_late <;> simp [Whisper.init]

/-- C2. For every 16 bit segment duration `D`, a `start_capture` that opens
the audio source sets the chunk size to 8000 and the slot budget to
`floor(D * rate / 8000) * 8000`; neither the 32 bit product `rate * D` nor
the 64 bit product wraps, the budget is a whole multiple of the chunk size
and at most `D * rate`. -/
theorem C2_slot_sample_budget (config : Config) (env : StartEnv) (st : Transcriber)
    (hrun : st.running_ = false) (hopen : env.open_ok = true)
    (hD : config.file_duration_ < 2 ^ 16) :
    (start_capture config env st).2.chunk_samples_ = 8000 ∧
    (start_capture config env st).2.buffer_samples_ =
      config.file_duration_ * rate_ / 8000 * 8000 ∧
    rate_ * config.file_duration_ < 2 ^ 32 ∧
    rate_ * config.file_duration_ / 8000 * 8000 < 2 ^ 64 ∧
    8000 ∣ (start_capture config env st).2.buffer_samples_ ∧
    (start_capture config env st).2.buffer_samples_ ≤ config.file_duration_ * rate_ := by
  obtain ⟨h1, h2, -⟩ := start_capture_ok config env st hrun hopen
  rw [h1, h2, compute_buffer_samples_eq _ hD]
  unfold rate_
  refine ⟨rfl, by omega, by omega, by omega, ⟨2 * config.file_duration_, by ring⟩, by omega⟩

/-- Witness of C2: the default configuration (5 second segments, 4 slots). -/
theorem C2_slot_sample_budget_witness :
    (start_capture ⟨2, 4, 5, 1 / 1000⟩ ⟨true, 4, fun _ => 0, true, false⟩ (initial 0)).2.chunk_samples_
      = 8000 ∧
    (start_capture ⟨2, 4, 5, 1 / 1000⟩ ⟨true, 4, fun _ => 0, true, false⟩ (initial 0)).2.buffer_samples_
      = 5 * rate_ / 8000 * 8000 ∧
    rate_ * 5 < 2 ^ 32 ∧
    rate_ * 5 / 8000 * 8000 < 2 ^ 64 ∧
    8000 ∣ (start_capture ⟨2, 4, 5, 1 / 1000⟩ ⟨true, 4, fun _ => 0, true, false⟩
      (initial 0)).2.buffer_samples_ ∧
    (start_capture ⟨2, 4, 5, 1 / 1000⟩ ⟨true, 4, fun _ => 0, true, false⟩ (initial 0)).2.buffer_samples_
      ≤ 5 * rate_ :=
  C2_slot_sample_budget ⟨2, 4, 5, 1 / 1000⟩ ⟨true, 4, fun _ => 0, true, false⟩ (initial 0)
    rfl rfl (by decide)

/-- Every pipeline that `start_capture` starts is configured, running, on a
fresh slot 0 with zero counters: the hypotheses of the capture loop theorems
below. -/
lemma start_capture_started (config : Config) (env : StartEnv) (st : Transcriber)
    (hrun : st.running_ = false) (hopen : env.open_ok = true) (hmodel : env.model_ok = true)
    (hD : config.file_duration_ < 2 ^ 16) :
    (start_capture config env st).1 = true ∧
    Configured (start_capture config env st).2 ∧
    Fresh (start_capture config env st).2 ∧
    (start_capture config env st).2.running_ = true ∧
    (start_capture config env st).2.file_counter_ = 0 ∧
    (start_capture config env st).2.file_id_ = 0 ∧
    (start_capture config env st).2.files_num_ = config.files_num_ := by
  obtain ⟨h1, h2, h3, h4, h5, h6, -, h8, h9⟩ := start_capture_ok config env st hrun hopen
  refine ⟨?_, ⟨h1, by rw [h3]; exact hD, by rw [h2, h3, h1]⟩, ⟨h5, h6⟩, ?_, h9, h8, h4⟩
  · unfold start_capture
    simp [hrun, hopen, hmodel, Whisper.init]
  · unfold start_capture
    simp [hrun, hopen, hmodel, Whisper.init, open_files]

/-! ### Admission policy of `close_files` -/

lemma close_files_slot (st : Transcriber) (file_id : ℕ) :
    (close_files st file_id).output_bufs_ file_id = if admitted st then st.tmp_buf_ else [] := by
  unfold close_files
  have h : admitted (set_output st file_id []) = admitted st := rfl
  simp only [h]
  cases admitted st <;> simp [set_output]

lemma close_files_other (st : Transcriber) (file_id i : ℕ) (h : i ≠ file_id) :
    (close_files st file_id).output_bufs_ i = st.output_bufs_ i := by
  unfold close_files
  have h1 : admitted (set_output st file_id []) = admitted st := rfl
  simp only [h1]
  cases admitted st <;> simp [set_output, h]

lemma admitted_iff (st : Transcriber) (hs : st.silence_samples_ ≤ st.buffer_samples_)
    (hsz : st.buffer_samples_ < 2 ^ 64) :
    admitted st = true ↔ keep_samples_ < st.buffer_samples_ - st.silence_samples_ := by
  unfold admitted
  have h : (st.buffer_samples_ + 2 ^ 64 - st.silence_samples_) % 2 ^ 64
      = st.buffer_samples_ - st.silence_samples_ := by omega
  rw [h]
  simp

/-- C1. For a completed slot whose staged sequence holds `buffer_samples_`
samples of which `silence_samples_` (at most `buffer_samples_`) were counted
silent, `close_files` leaves the slot's output buffer empty when the
non-silent count is at most `keep_samples_` = 1600 and equal to the whole
staged sequence (same order, length `buffer_samples_`) when it exceeds 1600;
whatever the output buffer held before is discarded. -/
theorem C1_close_files_admission (st : Transcriber) (file_id : ℕ)
    (hlen : st.tmp_buf_.length = st.buffer_samples_)
    (hs : st.silence_samples_ ≤ st.buffer_samples_)
    (hsz : st.buffer_samples_ < 2 ^ 64) :
    keep_samples_ = 1600 ∧
    (st.buffer_samples_ - st.silence_samples_ ≤ keep_samples_ →
      (close_files st file_id).output_bufs_ file_id = []) ∧
    (keep_samples_ < st.buffer_samples_ - st.silence_samples_ →
      (close_files st file_id).output_bufs_ file_id = st.tmp_buf_ ∧
      ((close_files st file_id).output_bufs_ file_id).length = st.buffer_samples_) ∧
    (∀ prev : List ℚ,
      (close_files (set_output st file_id prev) file_id).output_bufs_ file_id =
        (close_files st file_id).output_bufs_ file_id) := by
  refine ⟨rfl, ?_, ?_, ?_⟩
  · intro h
    have hna : admitted st = false := by
      cases hadm : admitted st
      · rfl
      · exact absurd ((admitted_iff st hs hsz).1 hadm) (by omega)
    rw [close_files_slot, hna]
    rfl
  · intro h
    have ha : admitted st = true := (admitted_iff st hs hsz).2 h
    rw [close_files_slot, ha]
    exact ⟨rfl, hlen⟩
  · intro prev
    rw [close_files_slot, close_files_slot]
    rfl

/-- Witness of C1: a mostly silent slot of the default pipeline, 1000 loud
samples among 80000. -/
theorem C1_close_files_admission_witness :
    keep_samples_ = 1600 ∧
    (quiet_slot.buffer_samples_ - quiet_slot.silence_samples_ ≤ keep_samples_ →
      (close_files quiet_slot 0).output_bufs_ 0 = []) ∧
    (keep_samples_ < quiet_slot.buffer_samples_ - quiet_slot.silence_samples_ →
      (close_files quiet_slot 0).output_bufs_ 0 = quiet_slot.tmp_buf_ ∧
      ((close_files quiet_slot 0).output_bufs_ 0).length = quiet_slot.buffer_samples_) ∧
    (∀ prev : List ℚ,
      (close_files (set_output quiet_slot 0 prev) 0).output_bufs_ 0 =
        (close_files quiet_slot 0).output_bufs_ 0) :=
  C1_close_files_admission quiet_slot 0
    (by
      show (List.replicate 1000 (1 / 2 : ℚ) ++ List.replicate 79000 (0 : ℚ)).length = _
      rw [List.length_append, List.length_replicate, List.length_replicate]
      rfl)
    (by decide) (by decide)

/-! ### The capture loop -/

lemma save_frames_fold (l : List ℕ) (st : Transcriber) :
    SameFrame (l.foldl save_frame st) st ∧
    (l.foldl save_frame st).tmp_buf_.length = st.tmp_buf_.length + l.length := by
  induction l generalizing st with
  | nil => exact ⟨⟨rfl, rfl, rfl, rfl, rfl, rfl, rfl, rfl, rfl, rfl⟩, rfl⟩
  | cons x xs ih =>
    rw [List.foldl_cons]
    obtain ⟨⟨h1, h2, h3, h4, h5, h6, h7, h8, h9, h10⟩, hl⟩ := ih (save_frame st x)
    refine ⟨⟨h1, h2, h3, h4, h5, h6, h7, h8, h9, h10⟩, ?_⟩
    rw [hl]
    simp only [save_frame, List.length_append, List.length_cons, List.length_nil]
    omega

lemma save_files_facts (st : Transcriber) (file_id : ℕ) :
    SameFrame (save_files st file_id) st ∧
    (save_files st file_id).tmp_buf_.length = st.tmp_buf_.length + st.chunk_samples_ := by
  have h := save_frames_fold (List.range st.chunk_samples_) st
  rw [List.length_range] at h
  exact h

lemma capture_append_facts (st : Transcriber) (r : ReadResult) :
    (capture_append st r).file_duration_ = st.file_duration_ ∧
    (capture_append st r).files_num_ = st.files_num_ ∧
    (capture_append st r).chunk_samples_ = st.chunk_samples_ ∧
    (capture_append st r).buffer_samples_ = st.buffer_samples_ ∧
    (capture_append st r).buffer_offset_ = (st.buffer_offset_ + st.chunk_samples_) % 2 ^ 32 ∧
    (capture_append st r).file_counter_ = st.file_counter_ ∧
    (capture_append st r).file_id_ = st.file_id_ ∧
    (capture_append st r).running_ = st.running_ ∧
    (capture_append st r).output_bufs_ = st.output_bufs_ ∧
    (capture_append st r).whisper_ = st.whisper_ ∧
    (capture_append st r).tmp_buf_.length = st.tmp_buf_.length + st.chunk_samples_ := by
  obtain ⟨⟨h1, h2, h3, h4, h5, h6, h7, h8, h9, h10⟩, hl⟩ :=
    save_files_facts (store_read st r) st.file_id_
  unfold capture_append
  refine ⟨h1, h2, h3, h4, ?_, h6, h7, h8, h9, h10, hl⟩
  show ((save_files (store_read st r) st.file_id_).buffer_offset_ +
    (save_files (store_read st r) st.file_id_).chunk_samples_) % 2 ^ 32 = _
  rw [h3, h5]
  rfl

lemma close_files_same (st : Transcriber) (file_id : ℕ) :
    (close_files st file_id).file_duration_ = st.file_duration_ ∧
    (close_files st file_id).files_num_ = st.files_num_ ∧
    (close_files st file_id).chunk_samples_ = st.chunk_samples_ ∧
    (close_files st file_id).buffer_samples_ = st.buffer_samples_ ∧
    (close_files st file_id).file_counter_ = st.file_counter_ ∧
    (close_files st file_id).file_id_ = st.file_id_ ∧
    (close_files st file_id).running_ = st.running_ ∧
    (close_files st file_id).whisper_ = st.whisper_ := by
  unfold close_files
  dsimp only
  split <;> exact ⟨rfl, rfl, rfl, rfl, rfl, rfl, rfl, rfl⟩

lemma capture_rotate_facts (st : Transcriber) :
    (capture_rotate st).file_duration_ = st.file_duration_ ∧
    (capture_rotate st).files_num_ = st.files_num_ ∧
    (capture_rotate st).chunk_samples_ = st.chunk_samples_ ∧
    (capture_rotate st).buffer_samples_ = st.buffer_samples_ ∧
    (capture_rotate st).buffer_offset_ = 0 ∧
    (capture_rotate st).file_counter_ = (st.file_counter_ + 1) % 2 ^ 32 ∧
    (capture_rotate st).file_id_ = (st.file_id_ + 1) % st.files_num_ ∧
    (capture_rotate st).running_ = st.running_ ∧
    (capture_rotate st).whisper_ = st.whisper_ ∧
    (capture_rotate st).tmp_buf_ = [] ∧
    (capture_rotate st).silence_samples_ = 0 := by
  obtain ⟨h1, h2, h3, h4, h5, h6, h7, h8⟩ := close_files_same st st.file_id_
  refine ⟨h1, h2, h3, h4, rfl, ?_, ?_, h7, h8, rfl, rfl⟩
  · show ((close_files st st.file_id_).file_counter_ + 1) % 2 ^ 32 = _
    rw [h5]
  · show ((close_files st st.file_id_).file_id_ + 1) % (close_files st st.file_id_).files_num_ = _
    rw [h6, h2]

lemma configured_bounds (st : Transcriber) (h : Configured st) :
    st.chunk_samples_ = 8000 ∧ st.buffer_samples_ < 2 ^ 31 := by
  obtain ⟨h1, h2, h3⟩ := h
  rw [h1, compute_buffer_samples_eq _ h2] at h3
  exact ⟨h1, by omega⟩

/-- A turn of the capture loop on a running pipeline whose read succeeded,
from a slot holding `a` of its `m` chunks. -/
lemma capture_iter_step (st : Transcriber) (r : ReadResult) (m a : ℕ)
    (hcfg : Configured st) (hrun : st.running_ = true) (hr : 0 ≤ r.ret)
    (hm : st.buffer_samples_ = m * st.chunk_samples_)
    (hoff : st.buffer_offset_ = a * st.chunk_samples_)
    (hlen : st.tmp_buf_.length = a * st.chunk_samples_) (ha : a < m) :
    (capture_append st r).buffer_offset_ = (a + 1) * st.chunk_samples_ ∧
    (capture_append st r).tmp_buf_.length = (a + 1) * st.chunk_samples_ ∧
    (a + 1 < m → capture_iter st r = (capture_append st r, Outcome.appended)) ∧
    (a + 1 = m → capture_iter st r = (capture_rotate (capture_append st r), Outcome.rotated)) := by
  obtain ⟨hC, hB⟩ := configured_bounds st hcfg
  obtain ⟨-, -, h3, h4, h5, -, -, -, -, -, h11⟩ := capture_append_facts st r
  rw [hC] at hm hoff hlen
  have hoff1 : (capture_append st r).buffer_offset_ = (a + 1) * 8000 := by
    rw [h5, hoff, hC]
    omega
  have hfull : buffer_full (capture_append st r) = decide (m < a + 2) := by
    unfold buffer_full
    rw [hoff1, h3, h4, hC, hm]
    have : ((a + 1) * 8000 + 8000) % 2 ^ 64 = (a + 2) * 8000 := by omega
    rw [this]
    apply decide_eq_decide.2
    constructor <;> intro h <;> omega
  have hnr : ¬ r.ret < 0 := not_lt.2 hr
  refine ⟨by rw [hoff1, hC], by rw [h11, hlen, hC]; ring, ?_, ?_⟩
  · intro h
    unfold capture_iter
    have : decide (m < a + 2) = false := decide_eq_false (by omega)
    simp [hrun, hnr, hfull, this]
  · intro h
    unfold capture_iter
    have : decide (m < a + 2) = true := decide_eq_true (by omega)
    simp [hrun, hnr, hfull, this]

lemma capture_iter_slot (st : Transcriber) (r : ReadResult) (m a : ℕ)
    (h : SlotAt st m a) (ha : a < m) (hr : 0 ≤ r.ret) :
    SlotAt (capture_iter st r).1 m ((a + 1) % m) ∧
    (capture_iter st r).2 ≠ Outcome.exited ∧
    (capture_iter st r).1.files_num_ = st.files_num_ ∧
    (capture_iter st r).1.whisper_ = st.whisper_ ∧
    (∀ t, Counted st t → Counted (capture_iter st r).1 (t + (a + 1) / m)) := by
  obtain ⟨hcfg, hrun, hm, hoff, hlen⟩ := h
  obtain ⟨s1, s2, s3, s4⟩ := capture_iter_step st r m a hcfg hrun hr hm hoff hlen ha
  obtain ⟨f1, f2, f3, f4, -, f6, f7, f8, -, f10, -⟩ := capture_append_facts st r
  have hcfg1 : Configured (capture_append st r) := by
    obtain ⟨c1, c2, c3⟩ := hcfg
    exact ⟨by rw [f3]; exact c1, by rw [f1]; exact c2, by rw [f4, f1, f3]; exact c3⟩
  rcases Nat.lt_or_ge (a + 1) m with hlt | hge
  · rw [s3 hlt, Nat.mod_eq_of_lt hlt, Nat.div_eq_of_lt hlt]
    refine ⟨⟨hcfg1, by rw [f8]; exact hrun, by rw [f4, f3]; exact hm, by rw [s1, f3],
      by rw [s2, f3]⟩, by simp, f2, f10, ?_⟩
    intro t ht
    exact ⟨by rw [f6]; exact ht.1, by rw [f7, f2]; exact ht.2⟩
  · have heq : a + 1 = m := by omega
    obtain ⟨g1, g2, g3, g4, g5, g6, g7, g8, g9, g10, -⟩ :=
      capture_rotate_facts (capture_append st r)
    have hmod : (a + 1) % m = 0 := by rw [heq]; exact Nat.mod_self m
    have hdiv : (a + 1) / m = 1 := by rw [heq]; exact Nat.div_self (by omega)
    rw [s4 heq, hmod, hdiv]
    refine ⟨⟨?_, by rw [g8, f8]; exact hrun, by rw [g4, g3, f4, f3]; exact hm,
      by rw [g5]; simp, by rw [g10]; simp⟩, by simp, by rw [g2, f2], by rw [g9, f10], ?_⟩
    · obtain ⟨c1, c2, c3⟩ := hcfg1
      exact ⟨by rw [g3]; exact c1, by rw [g1]; exact c2, by rw [g4, g1, g3]; exact c3⟩
    · intro t ht
      refine ⟨?_, ?_⟩
      · rw [g6, f6, ht.1]
        omega
      · rw [g7, g2, f7, f2, ht.2]
        simp [Nat.add_mod]

lemma div_mod_step (a n m : ℕ) :
    ((a + 1) % m + n) % m = (a + (n + 1)) % m ∧
    (a + 1) / m + ((a + 1) % m + n) / m = (a + (n + 1)) / m := by
  rcases Nat.eq_zero_or_pos m with h0 | hpos
  · subst h0
    simp
    omega
  · have h := Nat.div_add_mod (a + 1) m
    have e : a + (n + 1) = (a + 1) % m + n + m * ((a + 1) / m) := by omega
    rw [e, Nat.add_mul_mod_self_left, Nat.add_mul_div_left _ _ hpos]
    exact ⟨rfl, by omega⟩

lemma capture_run_cons (st : Transcriber) (r : ReadResult) (rs : List ReadResult)
    (h : (capture_iter st r).2 ≠ Outcome.exited) :
    capture_run st (r :: rs) = capture_run (capture_iter st r).1 rs := by
  rw [capture_run]
  rcases hc : capture_iter st r with ⟨s1, o⟩
  rw [hc] at h
  cases o
  · exact absurd rfl h
  · rfl
  · rfl

/-- The capture loop over successful reads: position in the slot and rotation
count after the whole sequence. -/
lemma capture_run_slot (rs : List ReadResult) (st : Transcriber) (m a : ℕ)
    (h : SlotAt st m a) (ha : a < m) (hr : ∀ r ∈ rs, 0 ≤ r.ret) :
    SlotAt (capture_run st rs) m ((a + rs.length) % m) ∧
    (capture_run st rs).files_num_ = st.files_num_ ∧
    (capture_run st rs).whisper_ = st.whisper_ ∧
    (∀ t, Counted st t → Counted (capture_run st rs) (t + (a + rs.length) / m)) := by
  induction rs generalizing st a with
  | nil =>
    simp only [capture_run, List.length_nil, Nat.add_zero]
    rw [Nat.mod_eq_of_lt ha, Nat.div_eq_of_lt ha]
    exact ⟨h, trivial, trivial, fun t ht => ht⟩
  | cons r rs ih =>
    obtain ⟨i1, i2, i3, i4, i5⟩ :=
      capture_iter_slot st r m a h ha (hr r (List.mem_cons_self r rs))
    have hrun := capture_run_cons st r rs i2
    have hpos : 0 < m := by omega
    obtain ⟨j1, j2, j3, j4⟩ := ih (capture_iter st r).1 ((a + 1) % m) i1
      (Nat.mod_lt _ hpos) (fun x hx => hr x (List.mem_cons_of_mem r hx))
    obtain ⟨d1, d2⟩ := div_mod_step a rs.length m
    rw [hrun, List.length_cons]
    rw [d1] at j1
    refine ⟨j1, by rw [j2, i3], by rw [j3, i4], ?_⟩
    intro t ht
    have := j4 _ (i5 t ht)
    rw [Nat.add_assoc, d2] at this
    exact this

lemma fresh_start_slot (st : Transcriber) (m : ℕ) (hcfg : Configured st)
    (hrun : st.running_ = true) (hfresh : Fresh st)
    (hm : st.buffer_samples_ / st.chunk_samples_ = m) :
    SlotAt st m 0 := by
  obtain ⟨c1, c2, c3⟩ := hcfg
  refine ⟨⟨c1, c2, c3⟩, hrun, ?_, by rw [hfresh.1]; simp, by rw [hfresh.2]; simp⟩
  rw [c1, compute_buffer_samples_eq _ c2] at c3
  rw [c1, c3] at hm
  rw [c1, c3]
  omega

/-- The bookkeeping of a capture loop started with zero counters, after any
sequence of successful reads. -/
lemma capture_run_counts (st : Transcriber) (m : ℕ) (rs : List ReadResult)
    (hcfg : Configured st) (hrun : st.running_ = true) (hfresh : Fresh st)
    (hzero : st.file_counter_ = 0 ∧ st.file_id_ = 0)
    (hm : st.buffer_samples_ / st.chunk_samples_ = m) (hm1 : 1 ≤ m)
    (hr : ∀ r ∈ rs, 0 ≤ r.ret) :
    (capture_run st rs).file_counter_ = rs.length / m % 2 ^ 32 ∧
    (capture_run st rs).file_id_ = rs.length / m % st.files_num_ ∧
    (capture_run st rs).files_num_ = st.files_num_ := by
  have h0 := fresh_start_slot st m hcfg hrun hfresh hm
  obtain ⟨-, k2, -, k4⟩ := capture_run_slot rs st m 0 h0 (by omega) hr
  have hc : Counted st 0 := ⟨by rw [hzero.1]; rfl, by rw [hzero.2]; simp⟩
  obtain ⟨e1, e2⟩ := k4 0 hc
  rw [Nat.zero_add, Nat.zero_add] at e1 e2
  rw [k2] at e2
  exact ⟨e1, e2, k2⟩

/-- Counterexample to C4 as stated: with one second segments (two chunks per
segment) and 4 slots, after `2 ^ 33` successful chunk reads from a fresh start
the 32 bit counter `file_counter_` is 0, not `floor(k / m) = 2 ^ 32`. -/
theorem C4_counter_wraps :
    1 ≤ started_one.buffer_samples_ / started_one.chunk_samples_ ∧
    1 ≤ started_one.files_num_ ∧
    (∀ r ∈ List.replicate (2 ^ 33) loud_chunk, 0 ≤ r.ret) ∧
    ¬ ((capture_run started_one (List.replicate (2 ^ 33) loud_chunk)).file_counter_ =
        (List.replicate (2 ^ 33) loud_chunk).length /
          (started_one.buffer_samples_ / started_one.chunk_samples_)) := by
  have hr : ∀ r ∈ List.replicate (2 ^ 33) loud_chunk, 0 ≤ r.ret := by
    intro r hx
    rw [List.eq_of_mem_replicate hx]
    decide
  have hm : started_one.buffer_samples_ / started_one.chunk_samples_ = 2 := by decide
  obtain ⟨h1, -, -⟩ := capture_run_counts started_one 2 (List.replicate (2 ^ 33) loud_chunk)
    ⟨rfl, by decide, rfl⟩ rfl ⟨rfl, rfl⟩ ⟨rfl, rfl⟩ hm (by decide) hr
  refine ⟨by decide, by decide, hr, ?_⟩
  rw [h1, hm, List.length_replicate]
  decide

/-- C4 (amended). Every rotation sets `file_id_` to `(file_id_ + 1) mod
files_num_` and `file_counter_` to `(file_counter_ + 1) mod 2 ^ 32`.  From a
fresh start of a configured pipeline with `m >= 1` chunks per segment and
`files_num_ >= 1`, after `k` successful chunk reads `file_counter_ =
floor(k / m) mod 2 ^ 32` (which is `floor(k / m)` while fewer than `2 ^ 32`
segments have completed), `file_id_ = floor(k / m) mod files_num_` and
`file_id_ < files_num_`.  With 4 slots, 5 second segments, rate 16000 and
chunk 8000 the counter is 4 after 40 chunks. -/
theorem C4_rotation_bookkeeping (st : Transcriber) (m : ℕ) (rs : List ReadResult)
    (hcfg : Configured st) (hrun : st.running_ = true) (hfresh : Fresh st)
    (hzero : st.file_counter_ = 0 ∧ st.file_id_ = 0)
    (hm : st.buffer_samples_ / st.chunk_samples_ = m) (hm1 : 1 ≤ m)
    (hN : 1 ≤ st.files_num_) (hr : ∀ r ∈ rs, 0 ≤ r.ret) :
    (∀ s : Transcriber,
      (capture_rotate s).file_id_ = (s.file_id_ + 1) % s.files_num_ ∧
      (capture_rotate s).file_counter_ = (s.file_counter_ + 1) % 2 ^ 32) ∧
    (capture_run st rs).file_counter_ = rs.length / m % 2 ^ 32 ∧
    (rs.length / m < 2 ^ 32 → (capture_run st rs).file_counter_ = rs.length / m) ∧
    (capture_run st rs).file_id_ = rs.length / m % st.files_num_ ∧
    (capture_run st rs).file_id_ < (capture_run st rs).files_num_ ∧
    (∀ reads : List ReadResult, reads.length = 40 → (∀ r ∈ reads, 0 ≤ r.ret) →
      started_default.files_num_ = 4 ∧ started_default.file_duration_ = 5 ∧
      started_default.chunk_samples_ = 8000 ∧
      (capture_run started_default reads).file_counter_ = 4) := by
  obtain ⟨h1, h2, h3⟩ := capture_run_counts st m rs hcfg hrun hfresh hzero hm hm1 hr
  refine ⟨fun s => ⟨(capture_rotate_facts s).2.2.2.2.2.2.1, (capture_rotate_facts s).2.2.2.2.2.1⟩,
    h1, fun hlt => by rw [h1, Nat.mod_eq_of_lt hlt], h2, ?_, ?_⟩
  · rw [h2, h3]
    exact Nat.mod_lt _ (by omega)
  · intro reads hl hok
    have hm10 : started_default.buffer_samples_ / started_default.chunk_samples_ = 10 := by
      decide
    obtain ⟨g1, -, -⟩ := capture_run_counts started_default 10 reads
      ⟨rfl, by decide, rfl⟩ rfl ⟨rfl, rfl⟩ ⟨rfl, rfl⟩ hm10 (by decide) hok
    rw [hl] at g1
    exact ⟨rfl, rfl, rfl, g1⟩

/-- Witness of C4 (amended): the default pipeline after 40 successful reads. -/
theorem C4_rotation_bookkeeping_witness :
    (∀ s : Transcriber,
      (capture_rotate s).file_id_ = (s.file_id_ + 1) % s.files_num_ ∧
      (capture_rotate s).file_counter_ = (s.file_counter_ + 1) % 2 ^ 32) ∧
    (capture_run started_default (List.replicate 40 loud_chunk)).file_counter_ =
      (List.replicate 40 loud_chunk).length / 10 % 2 ^ 32 ∧
    ((List.replicate 40 loud_chunk).length / 10 < 2 ^ 32 →
      (capture_run started_default (List.replicate 40 loud_chunk)).file_counter_ =
        (List.replicate 40 loud_chunk).length / 10) ∧
    (capture_run started_default (List.replicate 40 loud_chunk)).file_id_ =
      (List.replicate 40 loud_chunk).length / 10 % started_default.files_num_ ∧
    (capture_run started_default (List.replicate 40 loud_chunk)).file_id_ <
      (capture_run started_default (List.replicate 40 loud_chunk)).files_num_ ∧
    (∀ reads : List ReadResult, reads.length = 40 → (∀ r ∈ reads, 0 ≤ r.ret) →
      started_default.files_num_ = 4 ∧ started_default.file_duration_ = 5 ∧
      started_default.chunk_samples_ = 8000 ∧
      (capture_run started_default reads).file_counter_ = 4) :=
  C4_rotation_bookkeeping started_default 10 (List.replicate 40 loud_chunk)
    ⟨rfl, by decide, rfl⟩ rfl ⟨rfl, rfl⟩ ⟨rfl, rfl⟩ (by decide) (by decide) (by decide)
    (by intro r hx; rw [List.eq_of_mem_replicate hx]; decide)

/-! ### The transcription loop -/

lemma transcription_iter_running (st : Transcriber) (c : TransLoop) (eng : EngineResult)
    (hrun : st.running_ = true) (hwake : wake_pred st c = true) :
    transcription_iter st c eng =
      some ((transcription_handle st
          { c with current_file_conter := (c.current_file_conter + 1) % 2 ^ 32 } eng).1,
        (transcription_handle st
          { c with current_file_conter := (c.current_file_conter + 1) % 2 ^ 32 } eng).2.1,
        (transcription_handle st
          { c with current_file_conter := (c.current_file_conter + 1) % 2 ^ 32 } eng).2.2,
        true) := by
  unfold transcription_iter
  simp [hwake, hrun]

lemma transcription_handle_overrun (st : Transcriber) (c : TransLoop) (eng : EngineResult)
    (h : c.file_id = st.file_id_) :
    transcription_handle st c eng =
      (st, { c with file_id := (c.file_id + 1) % st.files_num_ }, [Event.overrun c.file_id]) := by
  unfold transcription_handle
  simp [h]

lemma transcription_handle_drain (st : Transcriber) (c : TransLoop) (eng : EngineResult)
    (h : c.file_id ≠ st.file_id_) :
    transcription_handle st c eng =
      if keep_samples_ < (st.output_bufs_ c.file_id).length then
        ({ st with whisper_ := (st.whisper_.transribe eng).2 },
          { c with file_id := (c.file_id + 1) % st.files_num_ },
          [Event.engine_call
            ((st.output_bufs_ c.file_id).take ((st.output_bufs_ c.file_id).length % 2 ^ 32))
            ((st.output_bufs_ c.file_id).length % 2 ^ 32) st.whisper_.prompt_tokens_])
      else
        ({ st with whisper_ := st.whisper_.segment },
          { c with file_id := (c.file_id + 1) % st.files_num_ }, [Event.context_reset]) := by
  unfold transcription_handle
  simp [h]

lemma transcription_iter_overrun (st : Transcriber) (c : TransLoop) (eng : EngineResult)
    (hrun : st.running_ = true) (hwake : wake_pred st c = true)
    (hov : c.file_id = st.file_id_) :
    transcription_iter st c eng =
      some (st, ⟨(c.current_file_conter + 1) % 2 ^ 32, (c.file_id + 1) % st.files_num_⟩,
        [Event.overrun c.file_id], true) := by
  rw [transcription_iter_running st c eng hrun hwake,
    transcription_handle_overrun st ⟨(c.current_file_conter + 1) % 2 ^ 32, c.file_id⟩ eng hov]

/-- C5. Let a slot be filled by `close_files` from a staged sequence of
`buffer_samples_` samples, `silence_samples_` of them silent, and let the
consumer wake on a running pipeline with its cursor on that slot, the slot
unchanged since and not the producer's active one.  Then the wake makes an
engine call if and only if the non-silent count exceeded `keep_samples_`; the
call receives the whole staged sequence and its length; otherwise the wake
makes no engine call and leaves the prompt tokens empty. -/
theorem C5_consumer_agrees_with_admission (st0 st : Transcriber) (c : TransLoop)
    (eng : EngineResult) (hcfg : Configured st0)
    (hlen : st0.tmp_buf_.length = st0.buffer_samples_)
    (hs : st0.silence_samples_ ≤ st0.buffer_samples_)
    (hkeep : st.output_bufs_ c.file_id = (close_files st0 c.file_id).output_bufs_ c.file_id)
    (hrun : st.running_ = true) (hwake : wake_pred st c = true)
    (hno : c.file_id ≠ st.file_id_) :
    ∃ st1 c1 events, transcription_iter st c eng = some (st1, c1, events, true) ∧
      ((∃ samples n prompt, Event.engine_call samples n prompt ∈ events) ↔
        keep_samples_ < st0.buffer_samples_ - st0.silence_samples_) ∧
      (keep_samples_ < st0.buffer_samples_ - st0.silence_samples_ →
        events = [Event.engine_call st0.tmp_buf_ st0.buffer_samples_ st.whisper_.prompt_tokens_]) ∧
      (¬ keep_samples_ < st0.buffer_samples_ - st0.silence_samples_ →
        events = [Event.context_reset] ∧ st1.whisper_.prompt_tokens_ = []) := by
  obtain ⟨-, hB⟩ := configured_bounds st0 hcfg
  have hiff := admitted_iff st0 hs (by omega)
  have hslot := close_files_slot st0 c.file_id
  rw [transcription_iter_running st c eng hrun hwake]
  refine ⟨_, _, _, rfl, ?_⟩
  have hd := transcription_handle_drain st
    { c with current_file_conter := (c.current_file_conter + 1) % 2 ^ 32 } eng hno
  rw [hd]
  have hL : st.output_bufs_ c.file_id = if admitted st0 = true then st0.tmp_buf_ else [] := by
    rw [hkeep, hslot]
  dsimp only
  rw [hL]
  rw [← hlen] at hiff hB ⊢
  by_cases hadm : keep_samples_ < st0.tmp_buf_.length - st0.silence_samples_
  · have ha : admitted st0 = true := hiff.2 hadm
    have hk : keep_samples_ < st0.tmp_buf_.length := by omega
    have hmod : st0.tmp_buf_.length % 2 ^ 32 = st0.tmp_buf_.length :=
      Nat.mod_eq_of_lt (by omega)
    rw [if_pos ha, if_pos hk, hmod, List.take_length]
    exact ⟨⟨fun _ => hadm, fun _ => ⟨_, _, _, List.mem_singleton.2 rfl⟩⟩,
      fun _ => rfl, fun hn => absurd hadm hn⟩
  · have ha : ¬ admitted st0 = true := fun hx => hadm (hiff.1 hx)
    have hk : ¬ keep_samples_ < ([] : List ℚ).length := by simp
    rw [if_neg ha, if_neg hk]
    refine ⟨⟨fun ⟨_, _, _, hm⟩ => ?_, fun h => absurd h hadm⟩,
      fun h => absurd h hadm, fun _ => ⟨rfl, rfl⟩⟩
    have := List.mem_singleton.1 hm
    cases this

/-- Witness of C5: the default pipeline one rotation after a full, non-silent
slot 0 was closed, the consumer waking for the first time. -/
theorem C5_consumer_agrees_with_admission_witness :
    ∃ st1 c1 events,
      transcription_iter after_full_slot ⟨0, 0⟩ engine_ok = some (st1, c1, events, true) ∧
      ((∃ samples n prompt, Event.engine_call samples n prompt ∈ events) ↔
        keep_samples_ < full_slot.buffer_samples_ - full_slot.silence_samples_) ∧
      (keep_samples_ < full_slot.buffer_samples_ - full_slot.silence_samples_ →
        events = [Event.engine_call full_slot.tmp_buf_ full_slot.buffer_samples_
          after_full_slot.whisper_.prompt_tokens_]) ∧
      (¬ keep_samples_ < full_slot.buffer_samples_ - full_slot.silence_samples_ →
        events = [Event.context_reset] ∧ st1.whisper_.prompt_tokens_ = []) :=
  C5_consumer_agrees_with_admission full_slot after_full_slot ⟨0, 0⟩ engine_ok
    ⟨rfl, by decide, rfl⟩
    (by show (List.replicate 80000 (1 / 2 : ℚ)).length = _; rw [List.length_replicate]; rfl)
    (by decide) rfl rfl (by decide) (by decide)

/-- C6. On every consumer wake of a running pipeline in which the cursor
equals the producer's active index, the turn changes nothing in the shared
object, emits only the overrun log line (no engine call), advances the
cursor to `(file_id + 1) mod files_num_`, and its outcome is the same
whatever the output buffers hold. -/
theorem C6_overrun_skip (st : Transcriber) (c : TransLoop) (eng : EngineResult)
    (hrun : st.running_ = true) (hwake : wake_pred st c = true)
    (hov : c.file_id = st.file_id_) :
    transcription_iter st c eng =
      some (st, ⟨(c.current_file_conter + 1) % 2 ^ 32, (c.file_id + 1) % st.files_num_⟩,
        [Event.overrun c.file_id], true) ∧
    (∀ samples n prompt, Event.engine_call samples n prompt ∉ [Event.overrun c.file_id]) ∧
    (∀ bufs : ℕ → List ℚ,
      transcription_iter { st with output_bufs_ := bufs } c eng =
        some ({ st with output_bufs_ := bufs },
          ⟨(c.current_file_conter + 1) % 2 ^ 32, (c.file_id + 1) % st.files_num_⟩,
          [Event.overrun c.file_id], true)) := by
  refine ⟨?_, ?_, ?_⟩
  · exact transcription_iter_overrun st c eng hrun hwake hov
  · intro samples n prompt hm
    have := List.mem_singleton.1 hm
    cases this
  · intro bufs
    exact transcription_iter_overrun { st with output_bufs_ := bufs } c eng hrun hwake hov

/-- Witness of C6: the lapped pipeline, cursor and active index both 1. -/
theorem C6_overrun_skip_witness :
    transcription_iter lapped lapped_cursor engine_ok =
      some (lapped,
        ⟨(lapped_cursor.current_file_conter + 1) % 2 ^ 32,
          (lapped_cursor.file_id + 1) % lapped.files_num_⟩,
        [Event.overrun lapped_cursor.file_id], true) ∧
    (∀ samples n prompt,
      Event.engine_call samples n prompt ∉ [Event.overrun lapped_cursor.file_id]) ∧
    (∀ bufs : ℕ → List ℚ,
      transcription_iter { lapped with output_bufs_ := bufs } lapped_cursor engine_ok =
        some ({ lapped with output_bufs_ := bufs },
          ⟨(lapped_cursor.current_file_conter + 1) % 2 ^ 32,
            (lapped_cursor.file_id + 1) % lapped.files_num_⟩,
          [Event.overrun lapped_cursor.file_id], true)) :=
  C6_overrun_skip lapped lapped_cursor engine_ok rfl (by decide) rfl

/-- On every consumer wake of a running pipeline in which the cursor equals
the producer's active index, the turn leaves the engine wrapper as it was:
the prompt tokens after the wake are the prompt tokens before it, and no
`segment()` call is made, unlike in the sibling branch that skips a slot of
at most `keep_samples_` samples. -/
lemma transcription_overrun_context (st : Transcriber) (c : TransLoop) (eng : EngineResult)
    (hrun : st.running_ = true) (hwake : wake_pred st c = true)
    (hov : c.file_id = st.file_id_) :
    ∃ st1 c1 events, transcription_iter st c eng = some (st1, c1, events, true) ∧
      st1.whisper_ = st.whisper_ ∧
      st1.whisper_.prompt_tokens_ = st.whisper_.prompt_tokens_ ∧
      Event.context_reset ∉ events := by
  refine ⟨st, _, [Event.overrun c.file_id],
    transcription_iter_overrun st c eng hrun hwake hov, rfl, rfl, ?_⟩
  intro hm
  have := List.mem_singleton.1 hm
  cases this

/-! ### The ring under interleaving -/

lemma transcription_handle_producer (st : Transcriber) (c : TransLoop) (eng : EngineResult) :
    (transcription_handle st c eng).1.file_duration_ = st.file_duration_ ∧
    (transcription_handle st c eng).1.files_num_ = st.files_num_ ∧
    (transcription_handle st c eng).1.chunk_samples_ = st.chunk_samples_ ∧
    (transcription_handle st c eng).1.buffer_samples_ = st.buffer_samples_ ∧
    (transcription_handle st c eng).1.buffer_offset_ = st.buffer_offset_ ∧
    (transcription_handle st c eng).1.tmp_buf_ = st.tmp_buf_ ∧
    (transcription_handle st c eng).1.file_counter_ = st.file_counter_ ∧
    (transcription_handle st c eng).1.file_id_ = st.file_id_ ∧
    (transcription_handle st c eng).1.running_ = st.running_ ∧
    (transcription_handle st c eng).2.1.file_id = (c.file_id + 1) % st.files_num_ ∧
    (transcription_handle st c eng).2.1.current_file_conter = c.current_file_conter := by
  unfold transcription_handle
  dsimp only
  split
  · exact ⟨rfl, rfl, rfl, rfl, rfl, rfl, rfl, rfl, rfl, rfl, rfl⟩
  · split <;> exact ⟨rfl, rfl, rfl, rfl, rfl, rfl, rfl, rfl, rfl, rfl, rfl⟩

lemma apply_move_capture (p : Pipeline) (r : ReadResult) (hrun : p.t.running_ = true)
    (hr : 0 ≤ r.ret) :
    apply_move p (Move.capture r) = some { p with t := (capture_iter p.t r).1 } := by
  unfold apply_move
  simp [hrun, hr]

lemma apply_move_inv (p p1 : Pipeline) (mv : Move) (m n : ℕ) (hn : 1 ≤ n)
    (hinv : RingInv p m n) (hstep : apply_move p mv = some p1) : RingInv p1 m n := by
  obtain ⟨⟨a, ha, hslot⟩, hN, hid, hcid⟩ := hinv
  have hpos : 0 < m := by omega
  cases mv with
  | capture r =>
    have e : apply_move p (Move.capture r) =
        if p.t.running_ = true ∧ 0 ≤ r.ret then some { p with t := (capture_iter p.t r).1 }
        else none := rfl
    rw [e] at hstep
    split at hstep
    · rename_i hc
      obtain ⟨hrun, hr⟩ := hc
      injection hstep with hstep
      subst hstep
      obtain ⟨i1, -, i3, -, -⟩ := capture_iter_slot p.t r m a hslot ha hr
      refine ⟨⟨(a + 1) % m, Nat.mod_lt _ hpos, i1⟩, by rw [← hN]; exact i3, ?_, hcid⟩
      obtain ⟨hcfg, hrun1, hm, hoff, hlen⟩ := hslot
      obtain ⟨-, -, s3, s4⟩ := capture_iter_step p.t r m a hcfg hrun1 hr hm hoff hlen ha
      rcases Nat.lt_or_ge (a + 1) m with hlt | hge
      · show (capture_iter p.t r).1.file_id_ < n
        rw [s3 hlt]
        rw [(capture_append_facts p.t r).2.2.2.2.2.2.1]
        exact hid
      · show (capture_iter p.t r).1.file_id_ < n
        rw [s4 (by omega)]
        obtain ⟨-, -, -, -, -, -, g7, -⟩ := capture_rotate_facts (capture_append p.t r)
        rw [g7, (capture_append_facts p.t r).2.1, hN]
        exact Nat.mod_lt _ (by omega)
    · exact absurd hstep (by simp)
  | transcribe eng =>
    have e : apply_move p (Move.transcribe eng) =
        if p.t.running_ = true then
          match transcription_iter p.t p.c eng with
          | some res => some { t := res.1, c := res.2.1 }
          | none => none
        else none := rfl
    rw [e] at hstep
    split at hstep
    · rename_i hrun
      by_cases hw : wake_pred p.t p.c = true
      · rw [transcription_iter_running p.t p.c eng hrun hw] at hstep
        dsimp only at hstep
        injection hstep with hstep
        subst hstep
        obtain ⟨t1, t2, t3, t4, t5, t6, t7, t8, t9, t10, -⟩ := transcription_handle_producer p.t
          { p.c with current_file_conter := (p.c.current_file_conter + 1) % 2 ^ 32 } eng
        obtain ⟨⟨c1, c2, c3⟩, hrun1, hm, hoff, hlen⟩ := hslot
        refine ⟨⟨a, ha, ⟨by rw [t3]; exact c1, by rw [t1]; exact c2,
          by rw [t4, t1, t3]; exact c3⟩, by rw [t9]; exact hrun1, by rw [t4, t3]; exact hm,
          by rw [t5, t3]; exact hoff, by rw [t6, t3]; exact hlen⟩, by rw [← hN]; exact t2,
          by show _ < n; rw [t8]; exact hid, ?_⟩
        show (transcription_handle p.t _ eng).2.1.file_id < n
        rw [t10, hN]
        exact Nat.mod_lt _ (by omega)
      · have hnone : transcription_iter p.t p.c eng = none := by
          unfold transcription_iter
          simp [hw]
        rw [hnone] at hstep
        exact absurd hstep (by simp)
    · exact absurd hstep (by simp)

lemma run_moves_inv (moves : List Move) (p p1 : Pipeline) (m n : ℕ) (hn : 1 ≤ n)
    (hinv : RingInv p m n) (hrun : run_moves p moves = some p1) : RingInv p1 m n := by
  induction moves generalizing p with
  | nil =>
    unfold run_moves at hrun
    injection hrun with hrun
    subst hrun
    exact hinv
  | cons mv rest ih =>
    unfold run_moves at hrun
    split at hrun
    · rename_i q hq
      exact ih q (apply_move_inv p q mv m n hn hinv hq) hrun
    · exact absurd hrun (by simp)

lemma run_moves_captures (rs : List ReadResult) (p : Pipeline) (m a : ℕ)
    (h : SlotAt p.t m a) (ha : a < m) (hr : ∀ r ∈ rs, 0 ≤ r.ret) :
    run_moves p (rs.map Move.capture) = some { p with t := capture_run p.t rs } := by
  induction rs generalizing p a with
  | nil => rfl
  | cons r rs ih =>
    have hr0 := hr r (List.mem_cons_self r rs)
    obtain ⟨i1, i2, -, -, -⟩ := capture_iter_slot p.t r m a h ha hr0
    have hpos : 0 < m := by omega
    rw [List.map_cons, run_moves, apply_move_capture p r h.2.1 hr0]
    dsimp only
    rw [ih { p with t := (capture_iter p.t r).1 } ((a + 1) % m) i1 (Nat.mod_lt _ hpos)
      (fun x hx => hr x (List.mem_cons_of_mem r hx))]
    rw [capture_run_cons p.t r rs i2]

lemma started_one_slot : SlotAt started_one 2 0 :=
  ⟨⟨rfl, by decide, rfl⟩, rfl, rfl, rfl, rfl⟩

lemma replicate_ok (k : ℕ) : ∀ r ∈ List.replicate k loud_chunk, 0 ≤ r.ret := by
  intro r hx
  rw [List.eq_of_mem_replicate hx]
  decide

/-- Nine successful reads, then a tenth, on a fresh pipeline of 4 slots with
two chunks per segment and a consumer that never runs. -/
lemma nine_reads_then_one (st : Transcriber) (r : ReadResult) (hslot : SlotAt st 2 0)
    (hzero : st.file_counter_ = 0 ∧ st.file_id_ = 0)
    (hn : st.files_num_ = 4) (hr : 0 ≤ r.ret) :
    ∃ q p,
      run_moves ⟨st, ⟨0, 0⟩⟩ ((List.replicate 9 r).map Move.capture) = some q ∧
      apply_move q (Move.capture r) = some p ∧
      q.c.current_file_conter = 0 ∧ q.t.file_counter_ = 4 ∧ q.t.file_id_ = 0 ∧
      capture_iter q.t r = (capture_rotate (capture_append q.t r), Outcome.rotated) ∧
      p.c.current_file_conter = 0 ∧ p.t.file_counter_ = 5 ∧ p.t.files_num_ = 4 ∧
      ¬ (p.t.file_counter_ ≤ p.c.current_file_conter + p.t.files_num_) := by
  have hok : ∀ x ∈ List.replicate 9 r, 0 ≤ x.ret := by
    intro x hx
    rw [List.eq_of_mem_replicate hx]
    exact hr
  have hq := run_moves_captures (List.replicate 9 r) ⟨st, ⟨0, 0⟩⟩ 2 0 hslot (by decide) hok
  obtain ⟨k1, k2, -, k4⟩ := capture_run_slot (List.replicate 9 r) st 2 0 hslot (by decide) hok
  have hc0 : Counted st 0 := ⟨by rw [hzero.1]; rfl, by rw [hzero.2]; simp⟩
  obtain ⟨n1, n2⟩ := k4 0 hc0
  rw [List.length_replicate] at k1 n1 n2
  rw [k2, hn] at n2
  have hc : (capture_run st (List.replicate 9 r)).file_counter_ = 4 := n1
  have hi : (capture_run st (List.replicate 9 r)).file_id_ = 0 := n2
  have k1b : SlotAt (capture_run st (List.replicate 9 r)) 2 1 := k1
  obtain ⟨hcfg, hrun, hm, hoff, hlen⟩ := k1b
  obtain ⟨-, -, -, s4⟩ := capture_iter_step _ r 2 1 hcfg hrun hr hm hoff hlen (by decide)
  have hrot := s4 rfl
  obtain ⟨-, g2, -, -, -, g6, -⟩ := capture_rotate_facts
    (capture_append (capture_run st (List.replicate 9 r)) r)
  obtain ⟨-, f2, -, -, -, f6, -⟩ := capture_append_facts (capture_run st (List.replicate 9 r)) r
  have hc5 : (capture_rotate (capture_append
      (capture_run st (List.replicate 9 r)) r)).file_counter_ = 5 := by
    rw [g6, f6, hc]
    rfl
  have hn4 : (capture_rotate (capture_append
      (capture_run st (List.replicate 9 r)) r)).files_num_ = 4 := by
    rw [g2, f2, k2, hn]
  have hle : ¬ ((capture_rotate (capture_append
      (capture_run st (List.replicate 9 r)) r)).file_counter_ ≤
      0 + (capture_rotate (capture_append
      (capture_run st (List.replicate 9 r)) r)).files_num_) := by
    rw [hc5, hn4]
    decide
  have hmove : apply_move ⟨capture_run st (List.replicate 9 r), ⟨0, 0⟩⟩
      (Move.capture r) = some ⟨capture_rotate (capture_append
      (capture_run st (List.replicate 9 r)) r), ⟨0, 0⟩⟩ := by
    have h := apply_move_capture ⟨capture_run st (List.replicate 9 r), ⟨0, 0⟩⟩ r hrun hr
    rw [h]
    dsimp only
    rw [hrot]
  exact ⟨⟨capture_run st (List.replicate 9 r), ⟨0, 0⟩⟩,
    ⟨capture_rotate (capture_append (capture_run st (List.replicate 9 r)) r), ⟨0, 0⟩⟩,
    hq, hmove, rfl, hc, hi, hrot, rfl, hc5, hn4, hle⟩

/-- Counterexample to C8 as stated: with 4 slots and two chunks per segment,
nine successful reads with no consumer turn in between lead to a state in
which 4 segments are complete, none is drained and slot 0 is active again;
the tenth read takes the rotation branch, so `close_files` rewrites slot 0,
whose first content was never drained, and the completed count 5 exceeds the
drained count 0 by more than the 4 slots of a lap. -/
theorem C8_producer_laps_consumer :
    ∃ q p,
      run_moves ⟨started_one, ⟨0, 0⟩⟩ ((List.replicate 9 loud_chunk).map Move.capture) = some q ∧
      apply_move q (Move.capture loud_chunk) = some p ∧
      q.c.current_file_conter = 0 ∧ q.t.file_counter_ = 4 ∧ q.t.file_id_ = 0 ∧
      capture_iter q.t loud_chunk
        = (capture_rotate (capture_append q.t loud_chunk), Outcome.rotated) ∧
      p.c.current_file_conter = 0 ∧ p.t.file_counter_ = 5 ∧ p.t.files_num_ = 4 ∧
      ¬ (p.t.file_counter_ ≤ p.c.current_file_conter + p.t.files_num_) :=
  nine_reads_then_one started_one loud_chunk started_one_slot ⟨rfl, rfl⟩ rfl
    (by decide)

/-- C8 (amended). The producer is never held back by the consumer: in every
state reachable from a fresh start under any interleaving of capture turns
and consumer turns, a successful read can be processed at once, rotation
included, whether or not the slot it closes was drained.  What every
reachable state does satisfy is that both slot indices are below
`files_num_` and that a consumer turn whose cursor equals the producer's
active index changes nothing and emits only the overrun log line, so the
consumer reads a slot only when its cursor differs from the active index. -/
theorem C8_ring_guard (st0 : Transcriber) (m n : ℕ) (moves : List Move) (p : Pipeline)
    (hcfg : Configured st0) (hrun : st0.running_ = true) (hfresh : Fresh st0)
    (hzero : st0.file_counter_ = 0 ∧ st0.file_id_ = 0)
    (hm : st0.buffer_samples_ / st0.chunk_samples_ = m) (hm1 : 1 ≤ m)
    (hn : st0.files_num_ = n) (hn1 : 1 ≤ n)
    (hreach : run_moves ⟨st0, ⟨0, 0⟩⟩ moves = some p) :
    p.t.file_id_ < n ∧ p.c.file_id < n ∧
    (∀ r : ReadResult, 0 ≤ r.ret →
      apply_move p (Move.capture r) = some { p with t := (capture_iter p.t r).1 } ∧
      (capture_iter p.t r).2 ≠ Outcome.exited) ∧
    (∀ eng st1 c1 events go, transcription_iter p.t p.c eng = some (st1, c1, events, go) →
      p.c.file_id = p.t.file_id_ → st1 = p.t ∧ events = [Event.overrun p.c.file_id]) := by
  have h0 : RingInv ⟨st0, ⟨0, 0⟩⟩ m n :=
    ⟨⟨0, by omega, fresh_start_slot st0 m hcfg hrun hfresh hm⟩, hn,
      by show st0.file_id_ < n; rw [hzero.2]; omega, by show 0 < n; omega⟩
  obtain ⟨⟨a, ha, hslot⟩, -, hid, hcid⟩ := run_moves_inv moves _ p m n hn1 h0 hreach
  refine ⟨hid, hcid, ?_, ?_⟩
  · intro r hr
    exact ⟨apply_move_capture p r hslot.2.1 hr, (capture_iter_slot p.t r m a hslot ha hr).2.1⟩
  · intro eng st1 c1 events go hiter hov
    by_cases hw : wake_pred p.t p.c = true
    · rw [transcription_iter_overrun p.t p.c eng hslot.2.1 hw hov] at hiter
      injection hiter with hiter
      injection hiter with h1 h2
      injection h2 with h2 h3
      injection h3 with h3 h4
      exact ⟨h1.symm, h3.symm⟩
    · have hnone : transcription_iter p.t p.c eng = none := by
        unfold transcription_iter
        simp [hw]
      rw [hnone] at hiter
      exact absurd hiter (by simp)

/-- Witness of C8 (amended): the one second pipeline after two successful
reads, one full segment ahead of a consumer that has not run. -/
theorem C8_ring_guard_witness :
    one_segment_done.t.file_id_ < 4 ∧ one_segment_done.c.file_id < 4 ∧
    (∀ r : ReadResult, 0 ≤ r.ret →
      apply_move one_segment_done (Move.capture r) =
        some { one_segment_done with t := (capture_iter one_segment_done.t r).1 } ∧
      (capture_iter one_segment_done.t r).2 ≠ Outcome.exited) ∧
    (∀ eng st1 c1 events go,
      transcription_iter one_segment_done.t one_segment_done.c eng
        = some (st1, c1, events, go) →
      one_segment_done.c.file_id = one_segment_done.t.file_id_ →
      st1 = one_segment_done.t ∧ events = [Event.overrun one_segment_done.c.file_id]) :=
  C8_ring_guard started_one 2 4 ([loud_chunk, loud_chunk].map Move.capture) one_segment_done
    ⟨rfl, by decide, rfl⟩ rfl ⟨rfl, rfl⟩ ⟨rfl, rfl⟩ (by decide) (by decide) rfl (by decide)
    (run_moves_captures [loud_chunk, loud_chunk] ⟨started_one, ⟨0, 0⟩⟩ 2 0 started_one_slot
      (by decide) (replicate_ok 2))

/-! ### A run that ends in an overrun -/

lemma save_frames_quiet (l : List ℕ) (st : Transcriber) (h : st.silence_threshold_ ≤ 0) :
    (l.foldl save_frame st).silence_samples_ = st.silence_samples_ ∧
    (l.foldl save_frame st).silence_threshold_ = st.silence_threshold_ := by
  induction l generalizing st with
  | nil => exact ⟨rfl, rfl⟩
  | cons x xs ih =>
    rw [List.foldl_cons]
    have hthr : (save_frame st x).silence_threshold_ = st.silence_threshold_ := rfl
    have hsil : (save_frame st x).silence_samples_ = st.silence_samples_ := by
      unfold save_frame
      have hn : ¬ |decode_frame st x| < st.silence_threshold_ :=
        not_lt.2 (le_trans h (abs_nonneg _))
      simp only [hn, if_false]
    obtain ⟨i1, i2⟩ := ih (save_frame st x) (by rw [hthr]; exact h)
    exact ⟨by rw [i1, hsil], by rw [i2, hthr]⟩

/-- With a threshold of zero (or below) a chunk adds nothing to the silence
count. -/
lemma capture_append_quiet (st : Transcriber) (r : ReadResult)
    (h : st.silence_threshold_ ≤ 0) :
    (capture_append st r).silence_samples_ = st.silence_samples_ ∧
    (capture_append st r).silence_threshold_ = st.silence_threshold_ :=
  save_frames_quiet (List.range (store_read st r).chunk_samples_) (store_read st r) h

lemma run_moves_append (l1 l2 : List Move) (p q : Pipeline)
    (h : run_moves p l1 = some q) : run_moves p (l1 ++ l2) = run_moves q l2 := by
  induction l1 generalizing p with
  | nil =>
    unfold run_moves at h
    injection h with h
    subst h
    rfl
  | cons mv rest ih =>
    rw [List.cons_append, run_moves]
    rw [run_moves] at h
    cases hp : apply_move p mv with
    | none =>
      rw [hp] at h
      exact absurd h (by simp)
    | some p1 =>
      rw [hp] at h
      exact ih p1 h

lemma process_segment_tokens (w : Whisper) (text : String) (tokens : List ℤ) :
    (process_segment w { text := some text, tokens := tokens }).prompt_tokens_ =
      w.prompt_tokens_ ++ tokens := by
  unfold process_segment
  dsimp only
  split <;> split <;> rfl

/-- The first slot of a fresh pipeline with two chunks per segment and a
threshold that counts nothing silent: after two successful reads the loop has
rotated once and slot 0 holds the whole segment. -/
lemma first_segment_kept (st : Transcriber) (r : ReadResult) (hslot : SlotAt st 2 0)
    (hzero : st.file_counter_ = 0 ∧ st.file_id_ = 0)
    (hthr : st.silence_threshold_ ≤ 0) (hsil : st.silence_samples_ = 0) (hr : 0 ≤ r.ret) :
    SlotAt (capture_run st [r, r]) 2 0 ∧ Counted (capture_run st [r, r]) 1 ∧
    (capture_run st [r, r]).files_num_ = st.files_num_ ∧
    (capture_run st [r, r]).whisper_ = st.whisper_ ∧
    keep_samples_ < ((capture_run st [r, r]).output_bufs_ 0).length := by
  have hok : ∀ x ∈ [r, r], 0 ≤ x.ret := by
    intro x hx
    simp only [List.mem_cons, List.mem_singleton, List.not_mem_nil, or_false, or_self] at hx
    rw [hx]
    exact hr
  obtain ⟨k1, k2, k3, k4⟩ := capture_run_slot [r, r] st 2 0 hslot (by decide) hok
  have hc0 : Counted st 0 := ⟨by rw [hzero.1]; rfl, by rw [hzero.2]; simp⟩
  have hl : [r, r].length = 2 := rfl
  rw [hl] at k1 k4
  have k1b : SlotAt (capture_run st [r, r]) 2 0 := k1
  have k4b : Counted (capture_run st [r, r]) 1 := k4 0 hc0
  refine ⟨k1b, k4b, k2, k3, ?_⟩
  obtain ⟨hcfg, hrun, hm, hoff, hlen⟩ := hslot
  obtain ⟨-, -, s3, -⟩ := capture_iter_step st r 2 0 hcfg hrun hr hm hoff hlen (by decide)
  have e1 : capture_iter st r = (capture_append st r, Outcome.appended) := s3 (by decide)
  obtain ⟨i1, i2, -, -, -⟩ := capture_iter_slot st r 2 0 ⟨hcfg, hrun, hm, hoff, hlen⟩
    (by decide) hr
  rw [e1] at i1 i2
  have i1b : SlotAt (capture_append st r) 2 1 := i1
  obtain ⟨hcfg1, hrun1, hm1, hoff1, hlen1⟩ := i1b
  obtain ⟨-, t2, -, t4⟩ :=
    capture_iter_step (capture_append st r) r 2 1 hcfg1 hrun1 hr hm1 hoff1 hlen1 (by decide)
  have e2 := t4 rfl
  have hne2 : (capture_iter (capture_append st r) r).2 ≠ Outcome.exited := by
    rw [e2]
    exact Outcome.noConfusion
  have hne1 : (capture_iter st r).2 ≠ Outcome.exited := by
    rw [e1]
    exact Outcome.noConfusion
  have hrun2 : capture_run st [r, r] =
      capture_rotate (capture_append (capture_append st r) r) := by
    rw [capture_run_cons st r [r] hne1, e1]
    dsimp only
    rw [capture_run_cons (capture_append st r) r [] hne2, e2]
    rfl
  obtain ⟨q1, q2⟩ := capture_append_quiet st r hthr
  obtain ⟨q3, -⟩ := capture_append_quiet (capture_append st r) r (by rw [q2]; exact hthr)
  obtain ⟨-, -, f3, f4, -, -, f7, -⟩ := capture_append_facts st r
  obtain ⟨-, -, g3, g4, -, -, g7, -⟩ := capture_append_facts (capture_append st r) r
  have hbs : (capture_append (capture_append st r) r).buffer_samples_ = 16000 := by
    rw [g4, f4, hm, hcfg.1]
  have hs0 : (capture_append (capture_append st r) r).silence_samples_ = 0 := by
    rw [q3, q1, hsil]
  have hid : (capture_append (capture_append st r) r).file_id_ = 0 := by
    rw [g7, f7, hzero.2]
  have hadm : admitted (capture_append (capture_append st r) r) = true := by
    unfold admitted
    rw [hbs, hs0]
    decide
  have hout : (capture_rotate (capture_append (capture_append st r) r)).output_bufs_ 0 =
      (capture_append (capture_append st r) r).tmp_buf_ := by
    have h := close_files_slot (capture_append (capture_append st r) r) 0
    rw [hadm, if_pos rfl] at h
    rw [← h]
    show (close_files _ (capture_append (capture_append st r) r).file_id_).output_bufs_ 0 = _
    rw [hid]
  rw [hrun2, hout, t2, f3, hcfg.1]
  decide

lemma transribe_tokens (w : Whisper) (text : String) (tokens : List ℤ) :
    (w.transribe ⟨0, [⟨some text, tokens⟩]⟩).2.prompt_tokens_ = tokens := by
  unfold Whisper.transribe Whisper.process_result
  simp only [ne_eq, not_true_eq_false, if_false, List.foldl_cons, List.foldl_nil]
  rw [process_segment_tokens]
  rfl

/-- A run that ends in an overrun with a non-empty context: on a fresh
pipeline of 4 slots with two chunks per segment and nothing counted silent,
two reads complete segment 0, the consumer transcribes it (the engine
returns `tokens`), and eight more reads complete segments 1 to 4 while the
consumer does not run.  The consumer's cursor and the producer's active
index are then both 1. -/
lemma overrun_after_lap (st : Transcriber) (r : ReadResult) (text : String)
    (tokens : List ℤ) (hslot : SlotAt st 2 0)
    (hzero : st.file_counter_ = 0 ∧ st.file_id_ = 0) (hn : st.files_num_ = 4)
    (hthr : st.silence_threshold_ ≤ 0) (hsil : st.silence_samples_ = 0) (hr : 0 ≤ r.ret) :
    ∃ p, run_moves ⟨st, ⟨0, 0⟩⟩ ([r, r].map Move.capture ++
        (Move.transcribe ⟨0, [⟨some text, tokens⟩]⟩ ::
          (List.replicate 8 r).map Move.capture)) = some p ∧
      p.t.running_ = true ∧ wake_pred p.t p.c = true ∧ p.c.file_id = p.t.file_id_ ∧
      p.t.whisper_.prompt_tokens_ = tokens := by
  obtain ⟨a1, a2, a3, -, a5⟩ := first_segment_kept st r hslot hzero hthr hsil hr
  have hok2 : ∀ x ∈ [r, r], 0 ≤ x.ret := by
    intro x hx
    simp only [List.mem_cons, List.mem_singleton, List.not_mem_nil, or_false, or_self] at hx
    rw [hx]
    exact hr
  have hok8 : ∀ x ∈ List.replicate 8 r, 0 ≤ x.ret := by
    intro x hx
    rw [List.eq_of_mem_replicate hx]
    exact hr
  have hA := run_moves_captures [r, r] ⟨st, ⟨0, 0⟩⟩ 2 0 hslot (by decide) hok2
  rw [run_moves_append _ _ _ _ hA, run_moves]
  dsimp only
  obtain ⟨s2, hs2⟩ : ∃ s2, capture_run st [r, r] = s2 := ⟨_, rfl⟩
  rw [hs2] at a1 a2 a3 a5 ⊢
  rw [hn] at a3
  have hfid : s2.file_id_ = 1 := by rw [a2.2, a3]
  have hcnt : s2.file_counter_ = 1 := a2.1
  have hwake : wake_pred s2 ⟨0, 0⟩ = true := by
    unfold wake_pred
    rw [hcnt]
    simp
  have hno : (0 : ℕ) ≠ s2.file_id_ := by rw [hfid]; decide
  have hB : apply_move ⟨s2, ⟨0, 0⟩⟩ (Move.transcribe ⟨0, [⟨some text, tokens⟩]⟩) =
      some ⟨{ s2 with whisper_ := (s2.whisper_.transribe ⟨0, [⟨some text, tokens⟩]⟩).2 },
        ⟨(0 + 1) % 2 ^ 32, (0 + 1) % s2.files_num_⟩⟩ := by
    have e : apply_move ⟨s2, ⟨0, 0⟩⟩ (Move.transcribe ⟨0, [⟨some text, tokens⟩]⟩) =
        if s2.running_ = true then
          match transcription_iter s2 ⟨0, 0⟩ ⟨0, [⟨some text, tokens⟩]⟩ with
          | some res => some { t := res.1, c := res.2.1 }
          | none => none
        else none := rfl
    rw [e, if_pos a1.2.1, transcription_iter_running s2 ⟨0, 0⟩ _ a1.2.1 hwake]
    dsimp only
    rw [transcription_handle_drain s2 ⟨(0 + 1) % 2 ^ 32, 0⟩ _ hno]
    dsimp only
    rw [if_pos a5]
  rw [hB]
  dsimp only
  obtain ⟨s3, hs3⟩ : ∃ s3,
      ({ s2 with whisper_ := (s2.whisper_.transribe ⟨0, [⟨some text, tokens⟩]⟩).2 } :
        Transcriber) = s3 := ⟨_, rfl⟩
  obtain ⟨c3, hc3⟩ : ∃ c3,
      (⟨(0 + 1) % 2 ^ 32, (0 + 1) % s2.files_num_⟩ : TransLoop) = c3 := ⟨_, rfl⟩
  have b1 : SlotAt s3 2 0 := by rw [← hs3]; exact a1
  have b2 : Counted s3 1 := by rw [← hs3]; exact a2
  have b3 : s3.files_num_ = 4 := by rw [← hs3]; exact a3
  have b4 : s3.whisper_.prompt_tokens_ = tokens := by
    rw [← hs3]
    exact transribe_tokens s2.whisper_ text tokens
  have d1 : c3.file_id = 1 := by rw [← hc3, a3]
  have d2 : c3.current_file_conter = 1 := by rw [← hc3]; rfl
  rw [hs3, hc3]
  have hC := run_moves_captures (List.replicate 8 r) ⟨s3, c3⟩ 2 0 b1 (by decide) hok8
  obtain ⟨k1, k2, k3, k4⟩ := capture_run_slot (List.replicate 8 r) s3 2 0 b1 (by decide) hok8
  obtain ⟨n1, n2⟩ := k4 1 b2
  rw [List.length_replicate] at n1 n2
  rw [k2, b3] at n2
  have hc5 : (capture_run s3 (List.replicate 8 r)).file_counter_ = 5 := n1
  have hi1 : (capture_run s3 (List.replicate 8 r)).file_id_ = 1 := n2
  refine ⟨_, hC, k1.2.1, ?_, ?_, ?_⟩
  · unfold wake_pred
    dsimp only
    rw [hc5, d2]
    simp
  · show c3.file_id = (capture_run s3 (List.replicate 8 r)).file_id_
    rw [d1, hi1]
  · show (capture_run s3 (List.replicate 8 r)).whisper_.prompt_tokens_ = tokens
    rw [k3, b4]

/-- C7, the code at the failing input, a run from a fresh start (4 slots, one
second segments, threshold 0): two reads complete segment 0, the consumer
transcribes it and the engine leaves the prompt token 9; eight more reads
complete segments 1 to 4 while the consumer does not run.  The consumer then
wakes with its cursor on the producer's active slot 1 and skips the segment;
after the wake has been handled the prompt tokens are still `[9]`, not
empty: the overrun branch makes no `segment()` call. -/
theorem C7_overrun_keeps_context :
    ∃ p, run_moves ⟨started_open, ⟨0, 0⟩⟩ ([loud_chunk, loud_chunk].map Move.capture ++
        (Move.transcribe ⟨0, [⟨some " world", [9]⟩]⟩ ::
          (List.replicate 8 loud_chunk).map Move.capture)) = some p ∧
      p.t.running_ = true ∧ wake_pred p.t p.c = true ∧ p.c.file_id = p.t.file_id_ ∧
      p.t.whisper_.prompt_tokens_ = [9] ∧
      ∃ st1 c1 events,
        transcription_iter p.t p.c engine_ok = some (st1, c1, events, true) ∧
        st1.whisper_.prompt_tokens_ = [9] ∧ st1.whisper_.prompt_tokens_ ≠ [] := by
  obtain ⟨p, h1, h2, h3, h4, h5⟩ := overrun_after_lap started_open loud_chunk " world" [9]
    ⟨⟨rfl, by decide, rfl⟩, rfl, rfl, rfl, rfl⟩ ⟨rfl, rfl⟩ rfl (le_of_eq rfl) rfl (by decide)
  exact ⟨p, h1, h2, h3, h4, h5, p.t, _, _,
    transcription_iter_overrun p.t p.c engine_ok h2 h3 h4, h5, by rw [h5]; decide⟩

/-! ### Single precision rounding -/

lemma round_half_even_int (z : ℤ) : round_half_even (z : ℚ) = z := by
  unfold round_half_even
  simp

lemma round_half_even_of_floor (q : ℚ) (f : ℤ) (h1 : (f : ℚ) ≤ q) (h2 : q < f + 1) :
    round_half_even q =
      if q - f < 1 / 2 then f else if 1 / 2 < q - f then f + 1
      else if f % 2 = 0 then f else f + 1 := by
  have hf : ⌊q⌋ = f := Int.floor_eq_iff.2 ⟨h1, h2⟩
  unfold round_half_even
  simp only [hf]

lemma int_log_of_bounds (q : ℚ) (L : ℤ) (h1 : (2 : ℚ) ^ L ≤ q) (h2 : q < (2 : ℚ) ^ (L + 1)) :
    Int.log 2 q = L := by
  have hpos : 0 < q := lt_of_lt_of_le (by positivity) h1
  have a : L ≤ Int.log 2 q :=
    (Int.zpow_le_iff_le_log (by norm_num) hpos).1 (by exact_mod_cast h1)
  have b : Int.log 2 q < L + 1 :=
    (Int.lt_zpow_iff_log_lt (by norm_num) hpos).1 (by exact_mod_cast h2)
  omega

/-- The rounding of a value whose binary exponent is known. -/
lemma f32_round_of_bounds (q : ℚ) (L : ℤ) (h1 : (2 : ℚ) ^ L ≤ |q|)
    (h2 : |q| < (2 : ℚ) ^ (L + 1)) :
    f32_round q = (round_half_even (q / 2 ^ (L - 23)) : ℚ) * 2 ^ (L - 23) := by
  have hne : q ≠ 0 := by
    intro h
    rw [h, abs_zero] at h1
    exact absurd h1 (not_le.2 (by positivity))
  unfold f32_round
  rw [if_neg hne, int_log_of_bounds |q| L h1 h2]

/-- A value with a significand below `2 ^ 24` is a binary32 value: rounding
leaves it alone. -/
lemma f32_round_exact (mant e : ℤ) (h : |mant| < 2 ^ 24) :
    f32_round ((mant : ℚ) * 2 ^ e) = (mant : ℚ) * 2 ^ e := by
  by_cases h0 : mant = 0
  · subst h0
    simp [f32_round]
  have hqne : (mant : ℚ) * 2 ^ e ≠ 0 :=
    mul_ne_zero (by exact_mod_cast h0) (by positivity)
  have habs : |(mant : ℚ) * 2 ^ e| = ((|mant| : ℤ) : ℚ) * (2 : ℚ) ^ e := by
    rw [abs_mul, abs_of_pos (by positivity : (0 : ℚ) < 2 ^ e)]
    push_cast
    rfl
  have hpos : 0 < |(mant : ℚ) * 2 ^ e| := abs_pos.2 hqne
  have hL1 := Int.zpow_log_le_self (b := 2) (r := |(mant : ℚ) * 2 ^ e|) (by norm_num) hpos
  have hlt : |(mant : ℚ) * 2 ^ e| < (2 : ℚ) ^ (24 + e) := by
    rw [habs, zpow_add₀ (by norm_num : (2 : ℚ) ≠ 0)]
    have : ((|mant| : ℤ) : ℚ) < 2 ^ (24 : ℤ) := by exact_mod_cast h
    exact mul_lt_mul_of_pos_right this (by positivity)
  have hLlt : Int.log 2 |(mant : ℚ) * 2 ^ e| < 24 + e := by
    have : ((2 : ℕ) : ℚ) ^ (Int.log 2 |(mant : ℚ) * 2 ^ e|) < 2 ^ (24 + e) :=
      lt_of_le_of_lt hL1 hlt
    have h2 : (1 : ℚ) < 2 := by norm_num
    exact (zpow_lt_zpow_iff_right₀ h2).1 (by exact_mod_cast this)
  unfold f32_round
  rw [if_neg hqne]
  simp only
  obtain ⟨L, hL⟩ : ∃ L, Int.log 2 |(mant : ℚ) * 2 ^ e| = L := ⟨_, rfl⟩
  rw [hL] at hLlt ⊢
  obtain ⟨k, hk⟩ : ∃ k : ℕ, e = (L - 23) + k := ⟨(e - (L - 23)).toNat, by omega⟩
  have h2ne : (2 : ℚ) ^ (L - 23) ≠ 0 := by positivity
  have hdiv : (mant : ℚ) * 2 ^ e / 2 ^ (L - 23) = ((mant * 2 ^ k : ℤ) : ℚ) := by
    rw [hk, zpow_add₀ (by norm_num : (2 : ℚ) ≠ 0), zpow_natCast]
    push_cast
    field_simp
    ring
  rw [hdiv, round_half_even_int]
  rw [hk, zpow_add₀ (by norm_num : (2 : ℚ) ≠ 0), zpow_natCast]
  push_cast
  ring

lemma f32_of_int_exact (n : ℤ) (h : |n| < 2 ^ 24) : f32_of_int n = n := by
  have := f32_round_exact n 0 h
  simpa [f32_of_int] using this

/-- Division of a small integer by a power of two is exact. -/
lemma f32_div_pow_two (n : ℤ) (k : ℕ) (h : |n| < 2 ^ 24) :
    f32_div n (2 ^ k) = (n : ℚ) / 2 ^ k := by
  have := f32_round_exact n (-(k : ℤ)) h
  rw [zpow_neg, zpow_natCast, ← div_eq_mul_inv] at this
  exact this

lemma f32_add_zero_left (x : ℚ) (h : f32_round x = x) : f32_add 0 x = x := by
  unfold f32_add
  rw [zero_add, h]

/-- The conversion of `INT32_MAX` rounds up to `2 ^ 31`. -/
lemma f32_of_int_max : f32_of_int 2147483647 = 2147483648 := by
  unfold f32_of_int
  rw [f32_round_of_bounds _ 30 (by norm_num) (by norm_num)]
  rw [round_half_even_of_floor _ 16777215 (by norm_num) (by norm_num)]
  norm_num

/-! ### The decoder on one channel -/

lemma decode_frame_mono (st : Transcriber) (offset : ℕ) (h1 : st.channels_ = 1) :
    decode_frame st offset =
      match decode_sample st.buffer_ st.bytes_per_frame_
          ((st.buffer_offset_ + offset) * st.bytes_per_frame_) with
      | some x => f32_add 0 x
      | none => 0 := by
  unfold decode_frame
  rw [h1]
  simp [List.range_succ]

lemma decode_mono_two (st : Transcriber) (offset a b : ℕ) (h1 : st.channels_ = 1)
    (h2 : st.bytes_per_frame_ = 2) (hb : frame_bytes st offset = [a, b]) :
    decode_frame st offset = f32_add 0 (f32_div (f32_of_int (to_int16 (a ||| (b <<< 8)))) 32768) := by
  rw [decode_frame_mono st offset h1]
  unfold frame_bytes at hb
  rw [h2] at hb ⊢
  simp only [List.range_succ, List.range_zero, List.nil_append, List.map_cons, List.map_nil,
    List.cons_append, List.cons.injEq, and_true, Nat.add_zero] at hb
  unfold decode_sample
  simp only [if_true, hb.1, hb.2]

lemma decode_mono_three (st : Transcriber) (offset a b c : ℕ) (h1 : st.channels_ = 1)
    (h2 : st.bytes_per_frame_ = 3) (hb : frame_bytes st offset = [a, b, c]) :
    decode_frame st offset =
      f32_add 0 (f32_div (f32_of_int (to_int32
        (if c &&& 0x80 ≠ 0 then a ||| (b <<< 8) ||| (c <<< 16) ||| (0xFF <<< 24)
          else a ||| (b <<< 8) ||| (c <<< 16)))) 8388608) := by
  rw [decode_frame_mono st offset h1]
  unfold frame_bytes at hb
  rw [h2] at hb ⊢
  simp only [List.range_succ, List.range_zero, List.nil_append, List.map_cons, List.map_nil,
    List.cons_append, List.cons.injEq, and_true, Nat.add_zero] at hb
  unfold decode_sample
  rw [if_neg (by decide), if_pos rfl]
  simp only [hb.1, hb.2.1, hb.2.2]

lemma decode_mono_four (st : Transcriber) (offset a b c d : ℕ) (h1 : st.channels_ = 1)
    (h2 : st.bytes_per_frame_ = 4) (hb : frame_bytes st offset = [a, b, c, d]) :
    decode_frame st offset =
      f32_add 0 (f32_div (f32_of_int (to_int32
        (a ||| (b <<< 8) ||| (c <<< 16) ||| (d <<< 24)))) 2147483648) := by
  rw [decode_frame_mono st offset h1]
  unfold frame_bytes at hb
  rw [h2] at hb ⊢
  simp only [List.range_succ, List.range_zero, List.nil_append, List.map_cons, List.map_nil,
    List.cons_append, List.cons.injEq, and_true, Nat.add_zero] at hb
  unfold decode_sample
  rw [if_neg (by decide), if_neg (by decide), if_pos rfl]
  simp only [hb.1, hb.2.1, hb.2.2.1, hb.2.2.2]

/-- The value a channel sample contributes when its integer fits the
significand: the integer over the full-scale power of two, exactly. -/
lemma mono_sample_exact (n : ℤ) (k : ℕ) (h : |n| < 2 ^ 24) :
    f32_add 0 (f32_div (f32_of_int n) (2 ^ k)) = (n : ℚ) / 2 ^ k := by
  rw [f32_of_int_exact n h, f32_div_pow_two n k h]
  apply f32_add_zero_left
  have := f32_round_exact n (-(k : ℤ)) h
  rw [zpow_neg, zpow_natCast, ← div_eq_mul_inv] at this
  exact this

/-- Counterexample to C9 as stated: one channel of 16 bit samples, the frame
bytes `FF 7F` (positive full scale `0x7FFF`).  The decoded sample is
`32767 / 32768 = 1 - 2 ^ (-15)`, whose distance to 1.0 is not within
`FLT_EPSILON = 2 ^ (-23)`. -/
theorem C9_full_scale_16_misses_epsilon :
    full_scale_16.channels_ = 1 ∧ full_scale_16.bytes_per_frame_ = 2 ∧
    frame_bytes full_scale_16 0 = [0xFF, 0x7F] ∧
    decode_frame full_scale_16 0 = 32767 / 32768 ∧
    ¬ |decode_frame full_scale_16 0 - 1| ≤ flt_epsilon := by
  have hb : frame_bytes full_scale_16 0 = [0xFF, 0x7F] := by decide
  have hd : decode_frame full_scale_16 0 = 32767 / 32768 := by
    rw [decode_mono_two full_scale_16 0 0xFF 0x7F rfl rfl hb]
    have hi : to_int16 (0xFF ||| (0x7F <<< 8)) = 32767 := by decide
    rw [hi]
    have h := mono_sample_exact 32767 15 (by norm_num)
    norm_num at h ⊢
    exact h
  refine ⟨rfl, rfl, hb, hd, ?_⟩
  rw [hd]
  unfold flt_epsilon
  norm_num [abs_le]

/-- C9 (amended). With one channel, the sample `save_files` decodes from a
frame is: for 2 byte samples `1 - 2 ^ (-15)` at positive full scale `0x7FFF`
(not within `FLT_EPSILON` of 1.0); for 3 byte samples `1 - 2 ^ (-23)` at
`0x7FFFFF` (exactly one `FLT_EPSILON` below 1.0); for 4 byte samples exactly
1.0 at `0x7FFFFFFF` (the conversion to float rounds up to `2 ^ 31`); at
negative full scale (`0x8000`, `0x800000`, `0x80000000`) exactly -1.0 for
every size; and exactly 0.0 for all-zero bytes. -/
theorem C9_decoder_full_scale (st : Transcriber) (offset : ℕ) (h1 : st.channels_ = 1) :
    (st.bytes_per_frame_ = 2 →
      (frame_bytes st offset = [0xFF, 0x7F] → decode_frame st offset = 1 - 1 / 2 ^ 15) ∧
      (frame_bytes st offset = [0x00, 0x80] → decode_frame st offset = -1) ∧
      (frame_bytes st offset = [0, 0] → decode_frame st offset = 0)) ∧
    (st.bytes_per_frame_ = 3 →
      (frame_bytes st offset = [0xFF, 0xFF, 0x7F] →
        decode_frame st offset = 1 - flt_epsilon) ∧
      (frame_bytes st offset = [0x00, 0x00, 0x80] → decode_frame st offset = -1) ∧
      (frame_bytes st offset = [0, 0, 0] → decode_frame st offset = 0)) ∧
    (st.bytes_per_frame_ = 4 →
      (frame_bytes st offset = [0xFF, 0xFF, 0xFF, 0x7F] → decode_frame st offset = 1) ∧
      (frame_bytes st offset = [0x00, 0x00, 0x00, 0x80] → decode_frame st offset = -1) ∧
      (frame_bytes st offset = [0, 0, 0, 0] → decode_frame st offset = 0)) := by
  refine ⟨fun h2 => ⟨fun hb => ?_, fun hb => ?_, fun hb => ?_⟩,
    fun h2 => ⟨fun hb => ?_, fun hb => ?_, fun hb => ?_⟩,
    fun h2 => ⟨fun hb => ?_, fun hb => ?_, fun hb => ?_⟩⟩
  · rw [decode_mono_two st offset _ _ h1 h2 hb]
    have hi : to_int16 (0xFF ||| (0x7F <<< 8)) = 32767 := by decide
    rw [hi]
    have h := mono_sample_exact 32767 15 (by norm_num)
    norm_num at h ⊢
    exact h
  · rw [decode_mono_two st offset _ _ h1 h2 hb]
    have hi : to_int16 (0x00 ||| (0x80 <<< 8)) = -32768 := by decide
    rw [hi]
    have h := mono_sample_exact (-32768) 15 (by norm_num)
    norm_num at h ⊢
    exact h
  · rw [decode_mono_two st offset _ _ h1 h2 hb]
    have hi : to_int16 (0 ||| (0 <<< 8)) = 0 := by decide
    rw [hi]
    have h := mono_sample_exact 0 15 (by norm_num)
    norm_num at h ⊢
    exact h
  · rw [decode_mono_three st offset _ _ _ h1 h2 hb]
    have hi : to_int32 (if 0x7F &&& 0x80 ≠ 0
        then 0xFF ||| (0xFF <<< 8) ||| (0x7F <<< 16) ||| (0xFF <<< 24)
        else 0xFF ||| (0xFF <<< 8) ||| (0x7F <<< 16)) = 8388607 := by decide
    rw [hi]
    have h := mono_sample_exact 8388607 23 (by norm_num)
    unfold flt_epsilon
    norm_num at h ⊢
    exact h
  · rw [decode_mono_three st offset _ _ _ h1 h2 hb]
    have hi : to_int32 (if 0x80 &&& 0x80 ≠ 0
        then 0x00 ||| (0x00 <<< 8) ||| (0x80 <<< 16) ||| (0xFF <<< 24)
        else 0x00 ||| (0x00 <<< 8) ||| (0x80 <<< 16)) = -8388608 := by decide
    rw [hi]
    have h := f32_round_exact (-1) 23 (by norm_num)
    have h0 := f32_round_exact (-1) 0 (by norm_num)
    norm_num at h h0
    unfold f32_add f32_div f32_of_int
    norm_num
    rw [h]
    norm_num
    rw [h0, h0]
  · rw [decode_mono_three st offset _ _ _ h1 h2 hb]
    have hi : to_int32 (if 0 &&& 0x80 ≠ 0
        then 0 ||| (0 <<< 8) ||| (0 <<< 16) ||| (0xFF <<< 24)
        else 0 ||| (0 <<< 8) ||| (0 <<< 16)) = 0 := by decide
    rw [hi]
    have h := mono_sample_exact 0 23 (by norm_num)
    norm_num at h ⊢
    exact h
  · rw [decode_mono_four st offset _ _ _ _ h1 h2 hb]
    have hi : to_int32 (0xFF ||| (0xFF <<< 8) ||| (0xFF <<< 16) ||| (0x7F <<< 24))
        = 2147483647 := by decide
    rw [hi]
    have h0 := f32_round_exact 1 0 (by norm_num)
    norm_num at h0
    have hm := f32_of_int_max
    norm_num at hm
    rw [hm]
    unfold f32_add f32_div
    norm_num
    rw [h0, h0]
  · rw [decode_mono_four st offset _ _ _ _ h1 h2 hb]
    have hi : to_int32 (0x00 ||| (0x00 <<< 8) ||| (0x00 <<< 16) ||| (0x80 <<< 24))
        = -2147483648 := by decide
    rw [hi]
    have h := f32_round_exact (-1) 31 (by norm_num)
    have h0 := f32_round_exact (-1) 0 (by norm_num)
    norm_num at h h0
    unfold f32_add f32_div f32_of_int
    norm_num
    rw [h]
    norm_num
    rw [h0, h0]
  · rw [decode_mono_four st offset _ _ _ _ h1 h2 hb]
    have hi : to_int32 (0 ||| (0 <<< 8) ||| (0 <<< 16) ||| (0 <<< 24)) = 0 := by decide
    rw [hi]
    have h := mono_sample_exact 0 31 (by norm_num)
    norm_num at h ⊢
    exact h

/-- Witness of C9 (amended): the mono 16 bit pipeline whose first frame is
`FF 7F`. -/
theorem C9_decoder_full_scale_witness :
    (full_scale_16.bytes_per_frame_ = 2 →
      (frame_bytes full_scale_16 0 = [0xFF, 0x7F] →
        decode_frame full_scale_16 0 = 1 - 1 / 2 ^ 15) ∧
      (frame_bytes full_scale_16 0 = [0x00, 0x80] → decode_frame full_scale_16 0 = -1) ∧
      (frame_bytes full_scale_16 0 = [0, 0] → decode_frame full_scale_16 0 = 0)) ∧
    (full_scale_16.bytes_per_frame_ = 3 →
      (frame_bytes full_scale_16 0 = [0xFF, 0xFF, 0x7F] →
        decode_frame full_scale_16 0 = 1 - flt_epsilon) ∧
      (frame_bytes full_scale_16 0 = [0x00, 0x00, 0x80] → decode_frame full_scale_16 0 = -1) ∧
      (frame_bytes full_scale_16 0 = [0, 0, 0] → decode_frame full_scale_16 0 = 0)) ∧
    (full_scale_16.bytes_per_frame_ = 4 →
      (frame_bytes full_scale_16 0 = [0xFF, 0xFF, 0xFF, 0x7F] →
        decode_frame full_scale_16 0 = 1) ∧
      (frame_bytes full_scale_16 0 = [0x00, 0x00, 0x00, 0x80] →
        decode_frame full_scale_16 0 = -1) ∧
      (frame_bytes full_scale_16 0 = [0, 0, 0, 0] → decode_frame full_scale_16 0 = 0)) :=
  C9_decoder_full_scale full_scale_16 0 rfl

/-! ### Chunk append and silence count -/

lemma save_frames_spec (l : List ℕ) (st : Transcriber) :
    (l.foldl save_frame st).tmp_buf_ = st.tmp_buf_ ++ l.map (decode_frame st) ∧
    (l.foldl save_frame st).silence_threshold_ = st.silence_threshold_ ∧
    (st.silence_samples_ + l.length < 2 ^ 32 →
      (l.foldl save_frame st).silence_samples_ =
        st.silence_samples_ + (l.map (decode_frame st)).countP (is_silent st.silence_threshold_)) := by
  induction l generalizing st with
  | nil => exact ⟨by simp, rfl, fun _ => by simp⟩
  | cons x xs ih =>
    rw [List.foldl_cons]
    obtain ⟨i1, i2, i3⟩ := ih (save_frame st x)
    have hdec : decode_frame (save_frame st x) = decode_frame st := rfl
    have hthr : (save_frame st x).silence_threshold_ = st.silence_threshold_ := rfl
    have htmp : (save_frame st x).tmp_buf_ = st.tmp_buf_ ++ [decode_frame st x] := rfl
    refine ⟨?_, by rw [i2, hthr], ?_⟩
    · rw [i1, htmp, hdec, List.map_cons, List.append_assoc, List.singleton_append]
    · intro hlt
      rw [List.length_cons] at hlt
      have hsil : (save_frame st x).silence_samples_ =
          st.silence_samples_ + (if is_silent st.silence_threshold_ (decode_frame st x) = true
            then 1 else 0) := by
        unfold save_frame is_silent
        by_cases hx : |decode_frame st x| < st.silence_threshold_
        · simp only [hx, if_true, decide_True]
          exact Nat.mod_eq_of_lt (by omega)
        · simp only [hx, if_false, decide_False, Bool.false_eq_true, Nat.add_zero]
      have hle : (save_frame st x).silence_samples_ ≤ st.silence_samples_ + 1 := by
        rw [hsil]
        split <;> omega
      rw [i3 (by omega), hsil, hdec, hthr, List.map_cons, List.countP_cons]
      omega

lemma chunk_frames_length (st : Transcriber) : (chunk_frames st).length = st.chunk_samples_ := by
  unfold chunk_frames
  rw [List.length_map, List.length_range]

lemma save_files_spec (st : Transcriber) (file_id : ℕ) :
    (save_files st file_id).tmp_buf_ = st.tmp_buf_ ++ chunk_frames st ∧
    (save_files st file_id).silence_threshold_ = st.silence_threshold_ ∧
    (st.silence_samples_ + st.chunk_samples_ < 2 ^ 32 →
      (save_files st file_id).silence_samples_ =
        st.silence_samples_ + (chunk_frames st).countP (is_silent st.silence_threshold_)) := by
  have h := save_frames_spec (List.range st.chunk_samples_) st
  rw [List.length_range] at h
  exact h

lemma is_silent_at_threshold (threshold x : ℚ) (h : |x| = threshold) :
    is_silent threshold x = false := by
  unfold is_silent
  rw [h]
  simp

lemma is_silent_nonpos (threshold x : ℚ) (h : threshold ≤ 0) :
    is_silent threshold x = false := by
  unfold is_silent
  exact decide_eq_false (not_lt.2 (le_trans h (abs_nonneg x)))

/-- C15. A call of `save_files` appends to `tmp_buf_` exactly the
`chunk_samples_` samples decoded from the frames of the chunk, in frame order
(the `k`-th appended sample is the one of frame `buffer_offset_ + k`) and
behind the earlier samples, which stay as they are.  With a silence count
that the chunk cannot push over 32 bits, as in every state of the capture
loop, `silence_samples_` grows by exactly the number of appended samples
whose absolute value is strictly below `silence_threshold_`: a sample whose
absolute value equals the threshold is not counted, and with threshold 0 no
sample is counted. -/
theorem C15_chunk_append_and_silence (st : Transcriber) (file_id : ℕ)
    (hs : st.silence_samples_ + st.chunk_samples_ < 2 ^ 32) :
    (save_files st file_id).tmp_buf_ = st.tmp_buf_ ++ chunk_frames st ∧
    (chunk_frames st).length = st.chunk_samples_ ∧
    (save_files st file_id).tmp_buf_.length = st.tmp_buf_.length + st.chunk_samples_ ∧
    (∀ k, k < st.chunk_samples_ →
      (save_files st file_id).tmp_buf_[st.tmp_buf_.length + k]? = some (decode_frame st k)) ∧
    (∀ i, i < st.tmp_buf_.length →
      (save_files st file_id).tmp_buf_[i]? = st.tmp_buf_[i]?) ∧
    (save_files st file_id).silence_samples_ =
      st.silence_samples_ + (chunk_frames st).countP (is_silent st.silence_threshold_) ∧
    (∀ x : ℚ, is_silent st.silence_threshold_ x = true ↔ |x| < st.silence_threshold_) ∧
    (∀ x : ℚ, |x| = st.silence_threshold_ → is_silent st.silence_threshold_ x = false) ∧
    (st.silence_threshold_ = 0 →
      (∀ x : ℚ, is_silent st.silence_threshold_ x = false) ∧
      (save_files st file_id).silence_samples_ = st.silence_samples_) := by
  obtain ⟨h1, -, h3⟩ := save_files_spec st file_id
  have hsil := h3 hs
  refine ⟨h1, chunk_frames_length st, ?_, ?_, ?_, hsil, ?_, ?_, ?_⟩
  · rw [h1, List.length_append, chunk_frames_length]
  · intro k hk
    rw [h1, List.getElem?_append_right (Nat.le_add_right _ _), Nat.add_sub_cancel_left]
    unfold chunk_frames
    rw [List.getElem?_map, List.getElem?_range hk]
    rfl
  · intro i hi
    rw [h1, List.getElem?_append_left hi]
  · intro x
    unfold is_silent
    exact decide_eq_true_iff
  · intro x hx
    exact is_silent_at_threshold _ x hx
  · intro h0
    have hall : ∀ x : ℚ, is_silent st.silence_threshold_ x = false :=
      fun x => is_silent_nonpos _ x (le_of_eq h0)
    refine ⟨hall, ?_⟩
    rw [hsil]
    have : (chunk_frames st).countP (is_silent st.silence_threshold_) = 0 := by
      rw [List.countP_eq_zero]
      intro x _
      rw [hall x]
      simp
    rw [this, Nat.add_zero]

/-- Witness of C15: the first chunk of the started one second pipeline. -/
theorem C15_chunk_append_and_silence_witness :
    (save_files started_one 0).tmp_buf_ = started_one.tmp_buf_ ++ chunk_frames started_one ∧
    (chunk_frames started_one).length = started_one.chunk_samples_ ∧
    (save_files started_one 0).tmp_buf_.length
      = started_one.tmp_buf_.length + started_one.chunk_samples_ ∧
    (∀ k, k < started_one.chunk_samples_ →
      (save_files started_one 0).tmp_buf_[started_one.tmp_buf_.length + k]?
        = some (decode_frame started_one k)) ∧
    (∀ i, i < started_one.tmp_buf_.length →
      (save_files started_one 0).tmp_buf_[i]? = started_one.tmp_buf_[i]?) ∧
    (save_files started_one 0).silence_samples_ =
      started_one.silence_samples_ +
        (chunk_frames started_one).countP (is_silent started_one.silence_threshold_) ∧
    (∀ x : ℚ, is_silent started_one.silence_threshold_ x = true ↔
      |x| < started_one.silence_threshold_) ∧
    (∀ x : ℚ, |x| = started_one.silence_threshold_ →
      is_silent started_one.silence_threshold_ x = false) ∧
    (started_one.silence_threshold_ = 0 →
      (∀ x : ℚ, is_silent started_one.silence_threshold_ x = false) ∧
      (save_files started_one 0).silence_samples_ = started_one.silence_samples_) :=
  C15_chunk_append_and_silence started_one 0 (by decide)

/-! ### No wrap in the admission test -/

lemma staged_le (st : Transcriber) (h : Staged st) :
    st.silence_samples_ ≤ st.tmp_buf_.length := by
  unfold Staged at h
  rw [h]
  exact List.countP_le_length _

/-- A chunk appended inside a slot keeps the silence count in step with the
staged samples; the 32 bit count cannot wrap there. -/
lemma capture_append_staged (st : Transcriber) (r : ReadResult) (m a : ℕ)
    (hslot : SlotAt st m a) (ha : a < m) (hst : Staged st) :
    Staged (capture_append st r) ∧
    Staged (save_files (store_read st r) st.file_id_) ∧
    (capture_append st r).silence_threshold_ = st.silence_threshold_ := by
  obtain ⟨hcfg, -, hm, -, hlen⟩ := hslot
  obtain ⟨hC, hB⟩ := configured_bounds st hcfg
  have hle := staged_le st hst
  obtain ⟨h1, h2, h3⟩ := save_files_spec (store_read st r) st.file_id_
  have hnowrap : (store_read st r).silence_samples_ + (store_read st r).chunk_samples_
      < 2 ^ 32 := by
    show st.silence_samples_ + st.chunk_samples_ < 2 ^ 32
    rw [hC] at hm hlen ⊢
    have : (a + 1) * 8000 ≤ m * 8000 := Nat.mul_le_mul_right _ ha
    omega
  have hsil := h3 hnowrap
  have hs : Staged (save_files (store_read st r) st.file_id_) := by
    unfold Staged
    rw [hsil, h1, h2, List.countP_append]
    show st.silence_samples_ + _ = List.countP _ st.tmp_buf_ + _
    rw [hst]
    rfl
  exact ⟨hs, hs, h2⟩

lemma transcription_handle_staged (st : Transcriber) (c : TransLoop) (eng : EngineResult) :
    (transcription_handle st c eng).1.silence_samples_ = st.silence_samples_ ∧
    (transcription_handle st c eng).1.silence_threshold_ = st.silence_threshold_ ∧
    (transcription_handle st c eng).1.tmp_buf_ = st.tmp_buf_ := by
  unfold transcription_handle
  dsimp only
  split
  · exact ⟨rfl, rfl, rfl⟩
  · split <;> exact ⟨rfl, rfl, rfl⟩

lemma apply_move_loop_inv (p p1 : Pipeline) (mv : Move) (m : ℕ)
    (hinv : LoopInv p m) (hstep : apply_move p mv = some p1) : LoopInv p1 m := by
  obtain ⟨⟨a, ha, hslot⟩, hst⟩ := hinv
  have hpos : 0 < m := by omega
  cases mv with
  | capture r =>
    have e : apply_move p (Move.capture r) =
        if p.t.running_ = true ∧ 0 ≤ r.ret then some { p with t := (capture_iter p.t r).1 }
        else none := rfl
    rw [e] at hstep
    split at hstep
    · rename_i hc
      obtain ⟨hrun, hr⟩ := hc
      injection hstep with hstep
      subst hstep
      obtain ⟨i1, -, -, -, -⟩ := capture_iter_slot p.t r m a hslot ha hr
      refine ⟨⟨(a + 1) % m, Nat.mod_lt _ hpos, i1⟩, ?_⟩
      obtain ⟨q1, -, -⟩ := capture_append_staged p.t r m a hslot ha hst
      obtain ⟨hcfg, hrun1, hm, hoff, hlen⟩ := hslot
      obtain ⟨-, -, s3, s4⟩ := capture_iter_step p.t r m a hcfg hrun1 hr hm hoff hlen ha
      rcases Nat.lt_or_ge (a + 1) m with hlt | hge
      · show Staged (capture_iter p.t r).1
        rw [s3 hlt]
        exact q1
      · show Staged (capture_iter p.t r).1
        rw [s4 (by omega)]
        obtain ⟨-, -, -, -, -, -, -, -, -, g10, g11⟩ :=
          capture_rotate_facts (capture_append p.t r)
        unfold Staged
        rw [g10, g11]
        rfl
    · exact absurd hstep (by simp)
  | transcribe eng =>
    have e : apply_move p (Move.transcribe eng) =
        if p.t.running_ = true then
          match transcription_iter p.t p.c eng with
          | some res => some { t := res.1, c := res.2.1 }
          | none => none
        else none := rfl
    rw [e] at hstep
    split at hstep
    · rename_i hrun
      by_cases hw : wake_pred p.t p.c = true
      · rw [transcription_iter_running p.t p.c eng hrun hw] at hstep
        dsimp only at hstep
        injection hstep with hstep
        subst hstep
        obtain ⟨t1, t2, t3, t4, t5, t6, t7, t8, t9, t10, -⟩ := transcription_handle_producer p.t
          { p.c with current_file_conter := (p.c.current_file_conter + 1) % 2 ^ 32 } eng
        obtain ⟨u1, u2, u3⟩ := transcription_handle_staged p.t
          { p.c with current_file_conter := (p.c.current_file_conter + 1) % 2 ^ 32 } eng
        obtain ⟨⟨c1, c2, c3⟩, hrun1, hm, hoff, hlen⟩ := hslot
        refine ⟨⟨a, ha, ⟨by rw [t3]; exact c1, by rw [t1]; exact c2,
          by rw [t4, t1, t3]; exact c3⟩, by rw [t9]; exact hrun1, by rw [t4, t3]; exact hm,
          by rw [t5, t3]; exact hoff, by rw [t6, t3]; exact hlen⟩, ?_⟩
        show Staged (transcription_handle p.t _ eng).1
        unfold Staged
        rw [u1, u2, u3]
        exact hst
      · have hnone : transcription_iter p.t p.c eng = none := by
          unfold transcription_iter
          simp [hw]
        rw [hnone] at hstep
        exact absurd hstep (by simp)
    · exact absurd hstep (by simp)

lemma run_moves_loop_inv (moves : List Move) (p p1 : Pipeline) (m : ℕ)
    (hinv : LoopInv p m) (hrun : run_moves p moves = some p1) : LoopInv p1 m := by
  induction moves generalizing p with
  | nil =>
    unfold run_moves at hrun
    injection hrun with hrun
    subst hrun
    exact hinv
  | cons mv rest ih =>
    rw [run_moves] at hrun
    cases hp : apply_move p mv with
    | none =>
      rw [hp] at hrun
      exact absurd hrun (by simp)
    | some q =>
      rw [hp] at hrun
      exact ih q (apply_move_loop_inv p q mv m hinv hp) hrun

lemma countP_add_countP_not (f : ℚ → Bool) (l : List ℚ) :
    l.countP f + l.countP (fun x => !f x) = l.length := by
  induction l with
  | nil => rfl
  | cons x xs ih =>
    rw [List.countP_cons, List.countP_cons, List.length_cons]
    cases hx : f x <;> simp <;> omega

/-- C16. Take a pipeline as `start_capture` leaves it (configured, running,
fresh slot, silence count 0) with `buffer_samples_ >= chunk_samples_`, and
any state reached from it by capture turns with successful reads and
consumer turns, in any order.  At the head of every turn, hence after every
`open_files`, and after every `save_files`, `silence_samples_ <=
tmp_buf_.size() <= buffer_samples_` and the silence count is the number of
staged silent samples.  Whenever a turn rotates, `close_files` runs on a
state with `tmp_buf_.size() = buffer_samples_`, and the `size_t` subtraction
`buffer_samples_ - silence_samples_` of its admission test does not wrap: it
is the number of staged samples that are not silent. -/
theorem C16_no_wrap_in_admission (st0 : Transcriber) (moves : List Move) (p : Pipeline)
    (hcfg : Configured st0) (hrun : st0.running_ = true) (hfresh : Fresh st0)
    (hsil : st0.silence_samples_ = 0) (hge : st0.chunk_samples_ ≤ st0.buffer_samples_)
    (hreach : run_moves ⟨st0, ⟨0, 0⟩⟩ moves = some p) :
    (p.t.silence_samples_ ≤ p.t.tmp_buf_.length ∧
      p.t.tmp_buf_.length ≤ p.t.buffer_samples_ ∧ Staged p.t) ∧
    (∀ r : ReadResult, 0 ≤ r.ret →
      (save_files (store_read p.t r) p.t.file_id_).silence_samples_ ≤
        (save_files (store_read p.t r) p.t.file_id_).tmp_buf_.length ∧
      (save_files (store_read p.t r) p.t.file_id_).tmp_buf_.length ≤
        (save_files (store_read p.t r) p.t.file_id_).buffer_samples_ ∧
      Staged (save_files (store_read p.t r) p.t.file_id_)) ∧
    (∀ r : ReadResult, 0 ≤ r.ret → (capture_iter p.t r).2 = Outcome.rotated →
      capture_iter p.t r = (capture_rotate (capture_append p.t r), Outcome.rotated) ∧
      (capture_append p.t r).tmp_buf_.length = (capture_append p.t r).buffer_samples_ ∧
      (capture_append p.t r).silence_samples_ ≤ (capture_append p.t r).buffer_samples_ ∧
      ((capture_append p.t r).buffer_samples_ + 2 ^ 64 - (capture_append p.t r).silence_samples_)
          % 2 ^ 64 =
        (capture_append p.t r).tmp_buf_.countP
          (fun x => !is_silent (capture_append p.t r).silence_threshold_ x)) := by
  obtain ⟨hC0, hB0⟩ := configured_bounds st0 hcfg
  have hm1 : 1 ≤ st0.buffer_samples_ / st0.chunk_samples_ := by
    rw [hC0] at hge ⊢
    omega
  have h0 : LoopInv ⟨st0, ⟨0, 0⟩⟩ (st0.buffer_samples_ / st0.chunk_samples_) := by
    refine ⟨⟨0, by omega, fresh_start_slot st0 _ hcfg hrun hfresh rfl⟩, ?_⟩
    show st0.silence_samples_ = st0.tmp_buf_.countP _
    rw [hsil, hfresh.2]
    rfl
  obtain ⟨m, hm⟩ : ∃ m, st0.buffer_samples_ / st0.chunk_samples_ = m := ⟨_, rfl⟩
  rw [hm] at h0 hm1
  obtain ⟨⟨a, ha, hslot⟩, hst⟩ := run_moves_loop_inv moves _ p m h0 hreach
  have hle := staged_le p.t hst
  obtain ⟨hcfg1, hrun1, hbs, hoff, hlen⟩ := hslot
  obtain ⟨hC, hB⟩ := configured_bounds p.t hcfg1
  rw [hC] at hbs hoff hlen
  have hmul : (a + 1) * 8000 ≤ m * 8000 := Nat.mul_le_mul_right _ ha
  refine ⟨⟨hle, by omega, hst⟩, ?_, ?_⟩
  · intro r _
    obtain ⟨-, q2, -⟩ := capture_append_staged p.t r m a
      ⟨hcfg1, hrun1, by rw [hC]; exact hbs, by rw [hC]; exact hoff, by rw [hC]; exact hlen⟩
      ha hst
    obtain ⟨⟨-, -, -, f4, -⟩, fl⟩ := save_files_facts (store_read p.t r) p.t.file_id_
    have fl2 : (save_files (store_read p.t r) p.t.file_id_).tmp_buf_.length =
        p.t.tmp_buf_.length + p.t.chunk_samples_ := fl
    have f42 : (save_files (store_read p.t r) p.t.file_id_).buffer_samples_ =
        p.t.buffer_samples_ := f4
    refine ⟨staged_le _ q2, ?_, q2⟩
    rw [fl2, f42, hC]
    omega
  · intro r hr hrot
    obtain ⟨q1, -, q3⟩ := capture_append_staged p.t r m a
      ⟨hcfg1, hrun1, by rw [hC]; exact hbs, by rw [hC]; exact hoff, by rw [hC]; exact hlen⟩
      ha hst
    obtain ⟨-, s2, s3, s4⟩ := capture_iter_step p.t r m a hcfg1 hrun1 hr
      (by rw [hC]; exact hbs) (by rw [hC]; exact hoff) (by rw [hC]; exact hlen) ha
    have heq : a + 1 = m := by
      rcases Nat.lt_or_ge (a + 1) m with hlt | hge2
      · rw [s3 hlt] at hrot
        exact absurd hrot Outcome.noConfusion
      · omega
    obtain ⟨-, -, -, f4, -⟩ := capture_append_facts p.t r
    have hlen2 : (capture_append p.t r).tmp_buf_.length = (capture_append p.t r).buffer_samples_ := by
      rw [s2, f4, hbs, hC, heq]
    have hle2 := staged_le _ q1
    have hcount := countP_add_countP_not (is_silent (capture_append p.t r).silence_threshold_)
      (capture_append p.t r).tmp_buf_
    have hq : (capture_append p.t r).silence_samples_ =
        (capture_append p.t r).tmp_buf_.countP
          (is_silent (capture_append p.t r).silence_threshold_) := q1
    have hB2 : (capture_append p.t r).buffer_samples_ < 2 ^ 31 := by rw [f4]; exact hB
    refine ⟨s4 heq, hlen2, by omega, ?_⟩
    omega

/-- Witness of C16: the one second pipeline after its first two reads. -/
theorem C16_no_wrap_in_admission_witness :
    (one_segment_done.t.silence_samples_ ≤ one_segment_done.t.tmp_buf_.length ∧
      one_segment_done.t.tmp_buf_.length ≤ one_segment_done.t.buffer_samples_ ∧
      Staged one_segment_done.t) ∧
    (∀ r : ReadResult, 0 ≤ r.ret →
      (save_files (store_read one_segment_done.t r) one_segment_done.t.file_id_).silence_samples_ ≤
        (save_files (store_read one_segment_done.t r) one_segment_done.t.file_id_).tmp_buf_.length ∧
      (save_files (store_read one_segment_done.t r) one_segment_done.t.file_id_).tmp_buf_.length ≤
        (save_files (store_read one_segment_done.t r)
          one_segment_done.t.file_id_).buffer_samples_ ∧
      Staged (save_files (store_read one_segment_done.t r) one_segment_done.t.file_id_)) ∧
    (∀ r : ReadResult, 0 ≤ r.ret → (capture_iter one_segment_done.t r).2 = Outcome.rotated →
      capture_iter one_segment_done.t r =
        (capture_rotate (capture_append one_segment_done.t r), Outcome.rotated) ∧
      (capture_append one_segment_done.t r).tmp_buf_.length =
        (capture_append one_segment_done.t r).buffer_samples_ ∧
      (capture_append one_segment_done.t r).silence_samples_ ≤
        (capture_append one_segment_done.t r).buffer_samples_ ∧
      ((capture_append one_segment_done.t r).buffer_samples_ + 2 ^ 64 -
          (capture_append one_segment_done.t r).silence_samples_) % 2 ^ 64 =
        (capture_append one_segment_done.t r).tmp_buf_.countP
          (fun x => !is_silent (capture_append one_segment_done.t r).silence_threshold_ x)) :=
  C16_no_wrap_in_admission started_one ([loud_chunk, loud_chunk].map Move.capture)
    one_segment_done ⟨rfl, by decide, rfl⟩ rfl ⟨rfl, rfl⟩ rfl (by decide)
    (run_moves_captures [loud_chunk, loud_chunk] ⟨started_one, ⟨0, 0⟩⟩ 2 0 started_one_slot
      (by decide) (replicate_ok 2))

/-! ### The decoder against its reference definition -/

lemma or_shift (lo hi i : ℕ) (h : lo < 2 ^ i) : lo ||| (hi <<< i) = lo + 2 ^ i * hi := by
  rw [Nat.shiftLeft_eq, Nat.or_comm, Nat.mul_comm hi, ← Nat.mul_add_lt_is_or h, Nat.add_comm]

set_option maxRecDepth 100000 in
lemma and_top_bit : ∀ c, c < 256 → ((c &&& 0x80 ≠ 0) ↔ 128 ≤ c) := by
  decide

lemma byte_at_lt (buf : ℕ → ℕ) (i : ℕ) : byte_at buf i < 256 :=
  Nat.mod_lt _ (by decide)

/-- The integer `save_files` builds from two bytes. -/
lemma int_of_two (a b : ℕ) (ha : a < 256) (hb : b < 256) :
    to_int16 (a ||| (b <<< 8)) = ref_channel_value [a, b] ∧
    -(2 ^ 15 : ℤ) ≤ ref_channel_value [a, b] ∧ ref_channel_value [a, b] < 2 ^ 15 := by
  rw [or_shift a b 8 (by omega)]
  unfold to_int16 ref_channel_value ref_twos_complement ref_le_value ref_le_value ref_le_value
  have hm : (a + 2 ^ 8 * b) % 2 ^ 16 = a + 2 ^ 8 * b := Nat.mod_eq_of_lt (by omega)
  rw [hm]
  simp only [List.length_cons, List.length_nil]
  have e : a + 256 * (b + 256 * 0) = a + 2 ^ 8 * b := by omega
  rw [e]
  norm_num
  split <;> constructor <;> omega

/-- The integer `save_files` builds from three bytes, sign extension
included. -/
lemma int_of_three (a b c : ℕ) (ha : a < 256) (hb : b < 256) (hc : c < 256) :
    to_int32 (if c &&& 0x80 ≠ 0 then a ||| (b <<< 8) ||| (c <<< 16) ||| (0xFF <<< 24)
      else a ||| (b <<< 8) ||| (c <<< 16)) = ref_channel_value [a, b, c] ∧
    -(2 ^ 23 : ℤ) ≤ ref_channel_value [a, b, c] ∧ ref_channel_value [a, b, c] < 2 ^ 23 := by
  rw [or_shift a b 8 (by omega), or_shift _ c 16 (by omega)]
  have htop := and_top_bit c hc
  unfold to_int32 ref_channel_value ref_twos_complement ref_le_value ref_le_value ref_le_value
    ref_le_value
  simp only [List.length_cons, List.length_nil]
  have e : a + 256 * (b + 256 * (c + 256 * 0)) = a + 2 ^ 8 * b + 2 ^ 16 * c := by omega
  rw [e]
  by_cases h : 128 ≤ c
  · rw [if_pos (htop.2 h), or_shift _ 0xFF 24 (by omega)]
    have hm : (a + 2 ^ 8 * b + 2 ^ 16 * c + 2 ^ 24 * 255) % 2 ^ 32
        = a + 2 ^ 8 * b + 2 ^ 16 * c + 2 ^ 24 * 255 := Nat.mod_eq_of_lt (by omega)
    rw [hm]
    norm_num
    rw [if_neg (by omega), if_neg (by omega)]
    omega
  · rw [if_neg (fun hx => h (htop.1 hx))]
    have hm : (a + 2 ^ 8 * b + 2 ^ 16 * c) % 2 ^ 32 = a + 2 ^ 8 * b + 2 ^ 16 * c :=
      Nat.mod_eq_of_lt (by omega)
    rw [hm]
    norm_num
    rw [if_pos (by omega), if_pos (by omega)]
    omega

/-- The integer `save_files` builds from four bytes. -/
lemma int_of_four (a b c d : ℕ) (ha : a < 256) (hb : b < 256) (hc : c < 256) (hd : d < 256) :
    to_int32 (a ||| (b <<< 8) ||| (c <<< 16) ||| (d <<< 24)) = ref_channel_value [a, b, c, d] ∧
    -(2 ^ 31 : ℤ) ≤ ref_channel_value [a, b, c, d] ∧ ref_channel_value [a, b, c, d] < 2 ^ 31 := by
  rw [or_shift a b 8 (by omega), or_shift _ c 16 (by omega), or_shift _ d 24 (by omega)]
  unfold to_int32 ref_channel_value ref_twos_complement ref_le_value ref_le_value ref_le_value
    ref_le_value ref_le_value
  simp only [List.length_cons, List.length_nil]
  have e : a + 256 * (b + 256 * (c + 256 * (d + 256 * 0)))
      = a + 2 ^ 8 * b + 2 ^ 16 * c + 2 ^ 24 * d := by omega
  rw [e]
  have hm : (a + 2 ^ 8 * b + 2 ^ 16 * c + 2 ^ 24 * d) % 2 ^ 32
      = a + 2 ^ 8 * b + 2 ^ 16 * c + 2 ^ 24 * d := Nat.mod_eq_of_lt (by omega)
  rw [hm]
  norm_num
  by_cases h : a + 256 * b + 65536 * c + 16777216 * d < 2147483648
  · rw [if_pos h]
    omega
  · rw [if_neg h]
    omega

lemma f32_round_exact_le (mant e : ℤ) (h : |mant| ≤ 2 ^ 24) :
    f32_round ((mant : ℚ) * 2 ^ e) = (mant : ℚ) * 2 ^ e := by
  rcases lt_or_eq_of_le h with hlt | heq
  · exact f32_round_exact mant e hlt
  · have h2 : (2 : ℚ) ^ (e + 1) = 2 ^ e * 2 := by
      rw [zpow_add₀ (by norm_num : (2 : ℚ) ≠ 0), zpow_one]
    rcases abs_eq (by norm_num : (0 : ℤ) ≤ 2 ^ 24) |>.1 heq with hp | hn
    · have := f32_round_exact (2 ^ 23) (e + 1) (by norm_num)
      rw [hp]
      rw [h2] at this
      push_cast at this ⊢
      have e1 : (8388608 : ℚ) * (2 ^ e * 2) = 16777216 * 2 ^ e := by ring
      rw [e1] at this
      exact this
    · have := f32_round_exact (-2 ^ 23) (e + 1) (by norm_num)
      rw [hn]
      rw [h2] at this
      push_cast at this ⊢
      have e1 : (-8388608 : ℚ) * (2 ^ e * 2) = -16777216 * 2 ^ e := by ring
      rw [e1] at this
      exact this

lemma round_half_even_bounds (q : ℚ) :
    ⌊q⌋ ≤ round_half_even q ∧ round_half_even q ≤ ⌊q⌋ + 1 := by
  unfold round_half_even
  dsimp only
  split
  · omega
  · split
    · omega
    · split <;> omega

lemma round_half_even_abs_le (q : ℚ) (n : ℤ) (h : |q| < n) : |round_half_even q| ≤ n := by
  obtain ⟨h1, h2⟩ := round_half_even_bounds q
  obtain ⟨ha, hb⟩ := abs_lt.1 h
  have hf1 : ⌊q⌋ < n := Int.floor_lt.2 hb
  have hf2 : -n ≤ ⌊q⌋ := Int.le_floor.2 (by push_cast; exact le_of_lt ha)
  rw [abs_le]
  constructor <;> omega

/-- Every rounded value has a significand of at most `2 ^ 24`. -/
lemma f32_round_repr (q : ℚ) :
    ∃ M E : ℤ, |M| ≤ 2 ^ 24 ∧ f32_round q = (M : ℚ) * 2 ^ E ∧
      (q ≠ 0 → E = Int.log 2 |q| - 23) := by
  by_cases h0 : q = 0
  · exact ⟨0, 0, by norm_num, by simp [f32_round, h0], fun h => absurd h0 h⟩
  · refine ⟨round_half_even (q / 2 ^ (Int.log 2 |q| - 23)), Int.log 2 |q| - 23, ?_, ?_, fun _ => rfl⟩
    · apply round_half_even_abs_le
      have hpos : 0 < |q| := abs_pos.2 h0
      have hlt := Int.lt_zpow_succ_log_self (b := 2) (by norm_num) |q|
      have hp : (0 : ℚ) < 2 ^ (Int.log 2 |q| - 23) := by positivity
      rw [abs_div, abs_of_pos hp, div_lt_iff₀ hp]
      have e1 : (2 : ℚ) ^ (Int.log 2 |q| + 1) = 2 ^ (24 : ℤ) * 2 ^ (Int.log 2 |q| - 23) := by
        rw [← zpow_add₀ (by norm_num : (2 : ℚ) ≠ 0)]
        congr 1
        ring
      have hlt2 : |q| < (2 : ℚ) ^ (Int.log 2 |q| + 1) := by exact_mod_cast hlt
      rw [e1] at hlt2
      norm_num at hlt2 ⊢
      exact hlt2
    · unfold f32_round
      rw [if_neg h0]

/-- Rounding does not cross a power of two. -/
lemma f32_round_abs_le (q : ℚ) (k : ℤ) (h : |q| ≤ 2 ^ k) : |f32_round q| ≤ 2 ^ k := by
  by_cases h0 : q = 0
  · rw [h0]
    have : f32_round 0 = 0 := by simp [f32_round]
    rw [this, abs_zero]
    positivity
  rcases lt_or_eq_of_le h with hlt | heq
  · obtain ⟨M, E, hM, hr, hE⟩ := f32_round_repr q
    have hpos : 0 < |q| := abs_pos.2 h0
    have hlog : Int.log 2 |q| < k :=
      (Int.lt_zpow_iff_log_lt (by norm_num) hpos).1 (by exact_mod_cast hlt)
    rw [hr, abs_mul, abs_of_pos (by positivity : (0 : ℚ) < 2 ^ E)]
    have hM' : |(M : ℚ)| ≤ 2 ^ (24 : ℤ) := by exact_mod_cast hM
    calc |(M : ℚ)| * 2 ^ E ≤ 2 ^ (24 : ℤ) * 2 ^ E :=
          mul_le_mul_of_nonneg_right hM' (by positivity)
      _ = 2 ^ (24 + E) := by rw [zpow_add₀ (by norm_num : (2 : ℚ) ≠ 0)]
      _ ≤ 2 ^ k := by
          apply zpow_le_zpow_right₀ (by norm_num)
          rw [hE h0]
          omega
  · rcases abs_eq (by positivity : (0 : ℚ) ≤ 2 ^ k) |>.1 heq with hp | hn
    · have := f32_round_exact 1 k (by norm_num)
      rw [hp]
      norm_num at this
      rw [this, abs_of_pos (by positivity)]
    · have := f32_round_exact (-1) k (by norm_num)
      rw [hn]
      norm_num at this
      rw [this, abs_neg, abs_of_pos (by positivity)]

/-- Division of a float by a power of two is exact. -/
lemma f32_div_round_pow_two (q : ℚ) (k : ℕ) :
    f32_div (f32_round q) (2 ^ k) = f32_round q / 2 ^ k := by
  obtain ⟨M, E, hM, hr, -⟩ := f32_round_repr q
  unfold f32_div
  rw [hr]
  have := f32_round_exact_le M (E - k) hM
  rw [zpow_sub₀ (by norm_num : (2 : ℚ) ≠ 0), zpow_natCast] at this
  rw [mul_div_assoc]
  exact this

lemma sample_bytes_two (buf : ℕ → ℕ) (i : ℕ) :
    sample_bytes buf 2 i = [byte_at buf i, byte_at buf (i + 1)] := by
  simp [sample_bytes, List.range_succ]

lemma sample_bytes_three (buf : ℕ → ℕ) (i : ℕ) :
    sample_bytes buf 3 i = [byte_at buf i, byte_at buf (i + 1), byte_at buf (i + 2)] := by
  simp [sample_bytes, List.range_succ]

lemma sample_bytes_four (buf : ℕ → ℕ) (i : ℕ) :
    sample_bytes buf 4 i =
      [byte_at buf i, byte_at buf (i + 1), byte_at buf (i + 2), byte_at buf (i + 3)] := by
  simp [sample_bytes, List.range_succ]

/-- A two byte channel sample contributes its integer over `2 ^ 15`,
exactly. -/
lemma decode_sample_two_ref (buf : ℕ → ℕ) (i : ℕ) :
    decode_sample buf 2 i = some ((ref_channel_value (sample_bytes buf 2 i) : ℚ) / 2 ^ 15) ∧
    -(2 ^ 15 : ℤ) ≤ ref_channel_value (sample_bytes buf 2 i) ∧
    ref_channel_value (sample_bytes buf 2 i) < 2 ^ 15 := by
  obtain ⟨h1, h2, h3⟩ := int_of_two (byte_at buf i) (byte_at buf (i + 1))
    (byte_at_lt buf i) (byte_at_lt buf (i + 1))
  rw [sample_bytes_two]
  refine ⟨?_, h2, h3⟩
  unfold decode_sample
  rw [if_pos rfl]
  dsimp only
  rw [h1]
  have hab : |ref_channel_value [byte_at buf i, byte_at buf (i + 1)]| < 2 ^ 24 := by
    rw [abs_lt]
    constructor <;> omega
  rw [f32_of_int_exact _ hab]
  have := f32_div_pow_two _ 15 hab
  norm_num at this ⊢
  exact this

/-- A three byte channel sample contributes its sign-extended integer over
`2 ^ 23`, exactly. -/
lemma decode_sample_three_ref (buf : ℕ → ℕ) (i : ℕ) :
    decode_sample buf 3 i = some ((ref_channel_value (sample_bytes buf 3 i) : ℚ) / 2 ^ 23) ∧
    -(2 ^ 23 : ℤ) ≤ ref_channel_value (sample_bytes buf 3 i) ∧
    ref_channel_value (sample_bytes buf 3 i) < 2 ^ 23 := by
  obtain ⟨h1, h2, h3⟩ := int_of_three (byte_at buf i) (byte_at buf (i + 1))
    (byte_at buf (i + 2)) (byte_at_lt buf i) (byte_at_lt buf (i + 1)) (byte_at_lt buf (i + 2))
  rw [sample_bytes_three]
  refine ⟨?_, h2, h3⟩
  unfold decode_sample
  rw [if_neg (by decide), if_pos rfl]
  dsimp only
  rw [h1]
  have hab : |ref_channel_value [byte_at buf i, byte_at buf (i + 1), byte_at buf (i + 2)]|
      < 2 ^ 24 := by
    rw [abs_lt]
    constructor <;> omega
  rw [f32_of_int_exact _ hab]
  have := f32_div_pow_two _ 23 hab
  norm_num at this ⊢
  exact this

/-- A four byte channel sample contributes its integer, rounded to a
binary32 value, over `2 ^ 31`; the contribution lies in `[-1, 1]`. -/
lemma decode_sample_four_ref (buf : ℕ → ℕ) (i : ℕ) :
    decode_sample buf 4 i =
      some (f32_of_int (ref_channel_value (sample_bytes buf 4 i)) / 2 ^ 31) ∧
    -(2 ^ 31 : ℤ) ≤ ref_channel_value (sample_bytes buf 4 i) ∧
    ref_channel_value (sample_bytes buf 4 i) < 2 ^ 31 ∧
    -1 ≤ f32_of_int (ref_channel_value (sample_bytes buf 4 i)) / 2 ^ 31 ∧
    f32_of_int (ref_channel_value (sample_bytes buf 4 i)) / 2 ^ 31 ≤ 1 := by
  obtain ⟨h1, h2, h3⟩ := int_of_four (byte_at buf i) (byte_at buf (i + 1))
    (byte_at buf (i + 2)) (byte_at buf (i + 3)) (byte_at_lt buf i) (byte_at_lt buf (i + 1))
    (byte_at_lt buf (i + 2)) (byte_at_lt buf (i + 3))
  rw [sample_bytes_four]
  have hq : |((ref_channel_value [byte_at buf i, byte_at buf (i + 1), byte_at buf (i + 2),
      byte_at buf (i + 3)] : ℤ) : ℚ)| ≤ 2 ^ (31 : ℤ) := by
    rw [abs_le]
    constructor
    · have : ((-(2 ^ 31 : ℤ) : ℤ) : ℚ) ≤ _ := Int.cast_le.2 h2
      norm_num at this ⊢
      exact this
    · have : _ ≤ (((2 ^ 31 : ℤ)) : ℚ) := Int.cast_le.2 (le_of_lt h3)
      norm_num at this ⊢
      exact this
  have hb := f32_round_abs_le _ 31 hq
  rw [abs_le] at hb
  refine ⟨?_, h2, h3, ?_, ?_⟩
  · unfold decode_sample
    rw [if_neg (by decide), if_neg (by decide), if_pos rfl]
    dsimp only
    rw [h1]
    have := f32_div_round_pow_two
      (ref_channel_value [byte_at buf i, byte_at buf (i + 1), byte_at buf (i + 2),
        byte_at buf (i + 3)]) 31
    unfold f32_of_int
    norm_num at this ⊢
    exact this
  · unfold f32_of_int
    rw [le_div_iff₀ (by norm_num)]
    have := hb.1
    norm_num at this ⊢
    linarith
  · unfold f32_of_int
    rw [div_le_iff₀ (by norm_num)]
    have := hb.2
    norm_num at this ⊢
    linarith

/-- Float additions of values `v / 2 ^ k` do not round while the running sum
keeps a significand of at most `2 ^ 24`. -/
lemma f32_sum_exact (k : ℕ) (vs : List ℤ) (K : ℤ) (n : ℕ) (hK : |K| ≤ n * 2 ^ k)
    (hv : ∀ v ∈ vs, |v| ≤ 2 ^ k) (hn : (n + vs.length) * 2 ^ k ≤ 2 ^ 24) :
    vs.foldl (fun (acc : ℚ) (v : ℤ) => f32_add acc ((v : ℚ) / 2 ^ k)) ((K : ℚ) / 2 ^ k) =
      ((K + vs.sum : ℤ) : ℚ) / 2 ^ k := by
  induction vs generalizing K n with
  | nil => simp
  | cons v vs ih =>
    rw [List.foldl_cons, List.sum_cons]
    have hv0 : |v| ≤ 2 ^ k := hv v (List.mem_cons_self v vs)
    rw [List.length_cons] at hn
    have hsum : |K + v| ≤ ((n + 1 : ℕ) : ℤ) * 2 ^ k := by
      have := abs_add K v
      push_cast
      linarith
    have hbig : |K + v| ≤ 2 ^ 24 := by
      have h1 : (n + 1) * 2 ^ k ≤ (n + (vs.length + 1)) * 2 ^ k :=
        Nat.mul_le_mul_right _ (by omega)
      have h2 : (((n + 1) * 2 ^ k : ℕ) : ℤ) ≤ ((2 ^ 24 : ℕ) : ℤ) :=
        Int.ofNat_le.2 (le_trans h1 hn)
      push_cast at h2 hsum
      linarith
    have hstep : f32_add ((K : ℚ) / 2 ^ k) ((v : ℚ) / 2 ^ k) = ((K + v : ℤ) : ℚ) / 2 ^ k := by
      unfold f32_add
      have := f32_round_exact_le (K + v) (-(k : ℤ)) hbig
      rw [zpow_neg, zpow_natCast, ← div_eq_mul_inv] at this
      rw [← add_div]
      push_cast at this ⊢
      exact this
    rw [hstep, ih (K + v) (n + 1) hsum (fun x hx => hv x (List.mem_cons_of_mem v hx))
      (by rw [Nat.add_assoc, Nat.add_comm 1]; exact hn)]
    congr 2
    ring

lemma sum_map_div (vs : List ℤ) (F : ℚ) :
    (vs.map (fun (v : ℤ) => (v : ℚ) / F)).sum = ((vs.sum : ℤ) : ℚ) / F := by
  induction vs with
  | nil => simp
  | cons v vs ih =>
    rw [List.map_cons, List.sum_cons, List.sum_cons, ih]
    push_cast
    rw [add_div]

/-- The decoder on a frame is the left-to-right float sum, from `0.0f`, of
what the channels contribute. -/
lemma decode_frame_fold (st : Transcriber) (offset : ℕ) :
    decode_frame st offset =
      (List.range st.channels_).foldl
        (fun acc ch =>
          match decode_sample st.buffer_ (st.bytes_per_frame_ / st.channels_)
              (channel_pos st offset ch) with
          | some x => f32_add acc x
          | none => acc)
        0 := rfl

/-- With samples of `2 ^ k` full scale that are decoded exactly and few
enough channels, the decoder computes the reference sum. -/
lemma decode_frame_exact (st : Transcriber) (offset k : ℕ)
    (hdec : ∀ i, decode_sample st.buffer_ (st.bytes_per_frame_ / st.channels_) i =
      some ((ref_channel_value
        (sample_bytes st.buffer_ (st.bytes_per_frame_ / st.channels_) i) : ℚ) / 2 ^ k))
    (hrange : ∀ i, |ref_channel_value
      (sample_bytes st.buffer_ (st.bytes_per_frame_ / st.channels_) i)| ≤ 2 ^ k)
    (hF : ref_full_scale (st.bytes_per_frame_ / st.channels_) = 2 ^ k)
    (hc : st.channels_ * 2 ^ k ≤ 2 ^ 24) :
    decode_frame st offset = ref_mono st offset ∧
    decode_frame st offset = (((channel_values st offset).sum : ℤ) : ℚ) / 2 ^ k := by
  have hfold : decode_frame st offset =
      (channel_values st offset).foldl (fun (acc : ℚ) (v : ℤ) => f32_add acc ((v : ℚ) / 2 ^ k))
        (((0 : ℤ) : ℚ) / 2 ^ k) := by
    rw [decode_frame_fold]
    unfold channel_values
    rw [List.foldl_map]
    simp only [hdec]
    norm_num
  have hlen : (channel_values st offset).length = st.channels_ := by
    unfold channel_values
    rw [List.length_map, List.length_range]
  have hex := f32_sum_exact k (channel_values st offset) 0 0 (by simp)
    (by
      intro v hv
      unfold channel_values at hv
      obtain ⟨ch, -, rfl⟩ := List.mem_map.1 hv
      exact hrange _)
    (by rw [hlen, Nat.zero_add]; exact hc)
  rw [zero_add] at hex
  refine ⟨?_, by rw [hfold, hex]⟩
  unfold ref_mono
  rw [hF, sum_map_div, hfold, hex]

/-- The decoder on a frame, once every channel sample is known to contribute
`g v` for its reference integer `v`: the left-to-right float sum of the
contributions. -/
lemma decode_frame_fold_ref (st : Transcriber) (offset : ℕ) (g : ℤ → ℚ)
    (hdec : ∀ i, decode_sample st.buffer_ (st.bytes_per_frame_ / st.channels_) i =
      some (g (ref_channel_value
        (sample_bytes st.buffer_ (st.bytes_per_frame_ / st.channels_) i)))) :
    decode_frame st offset =
      (channel_values st offset).foldl (fun (acc : ℚ) (v : ℤ) => f32_add acc (g v)) 0 := by
  rw [decode_frame_fold]
  unfold channel_values
  rw [List.foldl_map]
  simp only [hdec]

lemma channel_values_mem (st : Transcriber) (offset : ℕ) (x : ℤ)
    (hx : x ∈ channel_values st offset) :
    ∃ i, x = ref_channel_value
      (sample_bytes st.buffer_ (st.bytes_per_frame_ / st.channels_) i) := by
  unfold channel_values at hx
  obtain ⟨ch, -, rfl⟩ := List.mem_map.1 hx
  exact ⟨_, rfl⟩

lemma sum_replicate_cast (c : ℕ) (v : ℤ) :
    (((List.replicate c v).sum : ℤ) : ℚ) = (c : ℚ) * (v : ℚ) := by
  rw [List.sum_replicate, nsmul_eq_mul]
  push_cast
  rfl

lemma unit_range_of_int (x : ℤ) (k : ℕ) (h1 : -(2 ^ k : ℤ) ≤ x) (h2 : x < 2 ^ k) :
    (-1 : ℚ) ≤ (x : ℚ) / 2 ^ k ∧ (x : ℚ) / 2 ^ k < 1 := by
  have hpos : (0 : ℚ) < 2 ^ k := by positivity
  have c1 : ((-(2 ^ k : ℤ) : ℤ) : ℚ) ≤ (x : ℚ) := Int.cast_le.2 h1
  have c2 : (x : ℚ) < ((2 ^ k : ℤ) : ℚ) := Int.cast_lt.2 h2
  push_cast at c1 c2
  constructor
  · rw [le_div_iff₀ hpos]
    linarith
  · rw [div_lt_iff₀ hpos]
    linarith

/-- The positive full-scale sample of four bytes decodes to exactly 1.0: the
conversion of `2 ^ 31 - 1` to float rounds up to `2 ^ 31`. -/
lemma decode_four_max (st : Transcriber) (offset : ℕ) (h1 : st.channels_ = 1)
    (h2 : st.bytes_per_frame_ = 4) (hb : frame_bytes st offset = [0xFF, 0xFF, 0xFF, 0x7F]) :
    decode_frame st offset = 1 := by
  rw [decode_mono_four st offset _ _ _ _ h1 h2 hb]
  have hi : to_int32 (0xFF ||| (0xFF <<< 8) ||| (0xFF <<< 16) ||| (0x7F <<< 24))
      = 2147483647 := by decide
  rw [hi]
  have h0 := f32_round_exact 1 0 (by norm_num)
  norm_num at h0
  have hm := f32_of_int_max
  norm_num at hm
  rw [hm]
  unfold f32_add f32_div
  norm_num
  rw [h0, h0]

lemma ref_mono_of_values (st : Transcriber) (offset k : ℕ) (vs : List ℤ)
    (hv : channel_values st offset = vs) (hs : st.bytes_per_frame_ / st.channels_ = k) :
    ref_mono st offset = (vs.map (fun (v : ℤ) => (v : ℚ) / ref_full_scale k)).sum := by
  unfold ref_mono
  rw [hv, hs]

/-- Counterexample to C14 as stated: one channel of 4 byte samples, the frame
bytes `FF FF FF 7F`, so `v = 2 ^ 31 - 1` and `F = 2 ^ 31`.  The mono sample
`save_files` appends for the frame is exactly 1.0, which is neither
`v / F = (2 ^ 31 - 1) / 2 ^ 31` nor a value in `[-1, 1)`: the conversion of
`v` to float rounds to `2 ^ 31`. -/
theorem C14_four_byte_sample_rounds :
    full_scale_32.channels_ = 1 ∧ full_scale_32.bytes_per_frame_ / full_scale_32.channels_ = 4 ∧
    frame_bytes full_scale_32 0 = [0xFF, 0xFF, 0xFF, 0x7F] ∧
    channel_values full_scale_32 0 = [2147483647] ∧
    ref_mono full_scale_32 0 = 2147483647 / 2147483648 ∧
    (save_files full_scale_32 0).tmp_buf_.head? = some (decode_frame full_scale_32 0) ∧
    decode_frame full_scale_32 0 = 1 ∧
    decode_frame full_scale_32 0 ≠ ref_mono full_scale_32 0 ∧
    ¬ decode_frame full_scale_32 0 < 1 := by
  have hb : frame_bytes full_scale_32 0 = [0xFF, 0xFF, 0xFF, 0x7F] := by decide
  have hv : channel_values full_scale_32 0 = [2147483647] := by decide
  have hd : decode_frame full_scale_32 0 = 1 := decode_four_max full_scale_32 0 rfl rfl hb
  have hr : ref_mono full_scale_32 0 = 2147483647 / 2147483648 := by
    rw [ref_mono_of_values full_scale_32 0 4 _ hv rfl]
    unfold ref_full_scale
    norm_num
  have hs : (save_files full_scale_32 0).tmp_buf_.head? = some (decode_frame full_scale_32 0) := by
    rw [(save_files_spec full_scale_32 0).1]
    have ht : full_scale_32.tmp_buf_ = [] := rfl
    have hc : full_scale_32.chunk_samples_ = 7999 + 1 := rfl
    unfold chunk_frames
    rw [ht, hc, List.range_succ_eq_map, List.nil_append, List.map_cons, List.head?_cons]
  refine ⟨rfl, rfl, hb, hv, hr, hs, hd, ?_, ?_⟩
  · rw [hd, hr]
    norm_num
  · rw [hd]
    norm_num

/-- Samples of `2 ^ k` full scale that are converted without rounding: the
decoder is the float sum of `v / 2 ^ k` over the channels, every
contribution lies in `[-1, 1)`, and with few enough channels no addition
rounds either. -/
lemma decode_frame_pow (st : Transcriber) (offset k s : ℕ) (v : ℤ)
    (hs : st.bytes_per_frame_ / st.channels_ = s) (hk : ref_full_scale s = 2 ^ k)
    (href : ∀ i, decode_sample st.buffer_ s i =
        some ((ref_channel_value (sample_bytes st.buffer_ s i) : ℚ) / 2 ^ k) ∧
      -(2 ^ k : ℤ) ≤ ref_channel_value (sample_bytes st.buffer_ s i) ∧
      ref_channel_value (sample_bytes st.buffer_ s i) < 2 ^ k) :
    decode_frame st offset =
      (channel_values st offset).foldl
        (fun (acc : ℚ) (x : ℤ) => f32_add acc ((x : ℚ) / 2 ^ k)) 0 ∧
    (∀ x ∈ channel_values st offset,
      -(2 ^ k : ℤ) ≤ x ∧ x < 2 ^ k ∧ (-1 : ℚ) ≤ (x : ℚ) / 2 ^ k ∧ (x : ℚ) / 2 ^ k < 1) ∧
    (st.channels_ * 2 ^ k ≤ 2 ^ 24 →
      decode_frame st offset = ref_mono st offset ∧
      (channel_values st offset = List.replicate st.channels_ v →
        decode_frame st offset = (st.channels_ : ℚ) * (v : ℚ) / 2 ^ k)) := by
  subst hs
  refine ⟨decode_frame_fold_ref st offset (fun (x : ℤ) => (x : ℚ) / 2 ^ k)
    (fun i => (href i).1), fun x hx => ?_, fun hc => ?_⟩
  · obtain ⟨i, rfl⟩ := channel_values_mem st offset x hx
    obtain ⟨-, a, b⟩ := href i
    obtain ⟨c, d⟩ := unit_range_of_int _ k a b
    exact ⟨a, b, c, d⟩
  · obtain ⟨e1, e2⟩ := decode_frame_exact st offset k (fun i => (href i).1)
      (fun i => abs_le.2 ⟨(href i).2.1, le_of_lt (href i).2.2⟩) hk hc
    refine ⟨e1, fun hrep => ?_⟩
    rw [e2, hrep, sum_replicate_cast]

/-- C14 (amended). The mono samples `save_files` appends are the decoded
frames, in order.  The decoded frame is the float sum, from `0.0f` and
channel 0 first, of what the channels contribute, where `v_ch` is the
two's-complement value of the channel's little-endian bytes.  For 2 byte
samples the contribution is exactly `v_ch / 2 ^ 15` with `v_ch` in
`[-2 ^ 15, 2 ^ 15)`, hence in `[-1, 1)`, and with at most 512 channels (all
that the 8 bit channel count allows) the frame is the exact sum of
`v_ch / F`, so `c` identical channels of value `v` yield `c * v / 2 ^ 15`.
For 3 byte samples the contribution is exactly `v_ch / 2 ^ 23` with `v_ch`
sign-extended from bit 23, in `[-2 ^ 23, 2 ^ 23)`, hence in `[-1, 1)`, and
with at most 2 channels the frame is the exact sum, `c * v / 2 ^ 23` for
identical channels.  For 4 byte samples the contribution is
`float(v_ch) / 2 ^ 31`, with `v_ch` in `[-2 ^ 31, 2 ^ 31)` first rounded to
a float, and lies in `[-1, 1]`. -/
theorem C14_decoder_reference (st : Transcriber) (file_id offset : ℕ) (v : ℤ) :
    (save_files st file_id).tmp_buf_ =
      st.tmp_buf_ ++ (List.range st.chunk_samples_).map (decode_frame st) ∧
    (st.bytes_per_frame_ / st.channels_ = 2 →
      decode_frame st offset =
        (channel_values st offset).foldl
          (fun (acc : ℚ) (x : ℤ) => f32_add acc ((x : ℚ) / 2 ^ 15)) 0 ∧
      (∀ x ∈ channel_values st offset,
        -(2 ^ 15 : ℤ) ≤ x ∧ x < 2 ^ 15 ∧ (-1 : ℚ) ≤ (x : ℚ) / 2 ^ 15 ∧ (x : ℚ) / 2 ^ 15 < 1) ∧
      (st.channels_ ≤ 512 →
        decode_frame st offset = ref_mono st offset ∧
        (channel_values st offset = List.replicate st.channels_ v →
          decode_frame st offset = (st.channels_ : ℚ) * (v : ℚ) / 2 ^ 15))) ∧
    (st.bytes_per_frame_ / st.channels_ = 3 →
      decode_frame st offset =
        (channel_values st offset).foldl
          (fun (acc : ℚ) (x : ℤ) => f32_add acc ((x : ℚ) / 2 ^ 23)) 0 ∧
      (∀ x ∈ channel_values st offset,
        -(2 ^ 23 : ℤ) ≤ x ∧ x < 2 ^ 23 ∧ (-1 : ℚ) ≤ (x : ℚ) / 2 ^ 23 ∧ (x : ℚ) / 2 ^ 23 < 1) ∧
      (st.channels_ ≤ 2 →
        decode_frame st offset = ref_mono st offset ∧
        (channel_values st offset = List.replicate st.channels_ v →
          decode_frame st offset = (st.channels_ : ℚ) * (v : ℚ) / 2 ^ 23))) ∧
    (st.bytes_per_frame_ / st.channels_ = 4 →
      decode_frame st offset =
        (channel_values st offset).foldl
          (fun (acc : ℚ) (x : ℤ) => f32_add acc (f32_of_int x / 2 ^ 31)) 0 ∧
      (∀ x ∈ channel_values st offset,
        -(2 ^ 31 : ℤ) ≤ x ∧ x < 2 ^ 31 ∧
        -1 ≤ f32_of_int x / 2 ^ 31 ∧ f32_of_int x / 2 ^ 31 ≤ 1)) := by
  refine ⟨(save_files_spec st file_id).1, fun h2 => ?_, fun h3 => ?_, fun h4 => ?_⟩
  · obtain ⟨a, b, c⟩ := decode_frame_pow st offset 15 2 v h2
      (by unfold ref_full_scale; norm_num) (decode_sample_two_ref st.buffer_)
    exact ⟨a, b, fun hc => c (by omega)⟩
  · obtain ⟨a, b, c⟩ := decode_frame_pow st offset 23 3 v h3
      (by unfold ref_full_scale; norm_num) (decode_sample_three_ref st.buffer_)
    exact ⟨a, b, fun hc => c (by omega)⟩
  · constructor
    · apply decode_frame_fold_ref st offset (fun (x : ℤ) => f32_of_int x / 2 ^ 31)
      intro i
      rw [h4]
      exact (decode_sample_four_ref st.buffer_ i).1
    · intro x hx
      obtain ⟨i, rfl⟩ := channel_values_mem st offset x hx
      rw [h4]
      exact (decode_sample_four_ref st.buffer_ i).2

/-- Witness of C14 (amended): a frame of two 16 bit channels that both hold
`0x7FFF` decodes to the sum `2 * 32767 / 2 ^ 15`, a frame of two 24 bit
channels that both hold `0x800000` to `2 * (-8388608) / 2 ^ 23`, and the
4 byte frame `FF FF FF 7F` to the float sum over its one channel. -/
theorem C14_decoder_reference_witness :
    (stereo_16.bytes_per_frame_ / stereo_16.channels_ = 2 ∧ stereo_16.channels_ ≤ 512 ∧
      channel_values stereo_16 0 = List.replicate stereo_16.channels_ 32767 ∧
      decode_frame stereo_16 0 = ref_mono stereo_16 0 ∧
      decode_frame stereo_16 0 = (stereo_16.channels_ : ℚ) * ((32767 : ℤ) : ℚ) / 2 ^ 15) ∧
    (stereo_24.bytes_per_frame_ / stereo_24.channels_ = 3 ∧ stereo_24.channels_ ≤ 2 ∧
      channel_values stereo_24 0 = List.replicate stereo_24.channels_ (-8388608) ∧
      decode_frame stereo_24 0 = ref_mono stereo_24 0 ∧
      decode_frame stereo_24 0 = (stereo_24.channels_ : ℚ) * ((-8388608 : ℤ) : ℚ) / 2 ^ 23) ∧
    (full_scale_32.bytes_per_frame_ / full_scale_32.channels_ = 4 ∧
      decode_frame full_scale_32 0 =
        (channel_values full_scale_32 0).foldl
          (fun (acc : ℚ) (x : ℤ) => f32_add acc (f32_of_int x / 2 ^ 31)) 0) := by
  have h16 := ((C14_decoder_reference stereo_16 0 0 32767).2.1 (by decide)).2.2 (by decide)
  have h24 := ((C14_decoder_reference stereo_24 0 0 (-8388608)).2.2.1 (by decide)).2.2
    (by decide)
  have h32 := ((C14_decoder_reference full_scale_32 0 0 0).2.2.2 (by decide)).1
  exact ⟨⟨by decide, by decide, by decide, h16.1, h16.2 (by decide)⟩,
    ⟨by decide, by decide, by decide, h24.1, h24.2 (by decide)⟩,
    ⟨by decide, h32⟩⟩

/-! ### Stopping -/

lemma stop_capture_running (env : StopEnv) (st : Transcriber) (a b : Bool)
    (hrun : st.running_ = true) (ht : st.res_trans_ = some a) (hc : st.res_capts_ = some b)
    (hw : ¬ (a = true ∧ env.consumer_waiting = true ∧ env.capture_notified = true)) :
    stop_capture env st =
      some (b, { st with running_ := false, res_trans_ := none, res_capts_ := none },
        [StopEvent.join_trans, StopEvent.join_capts, StopEvent.close_capture]) := by
  unfold stop_capture
  simp only [hrun, ht, hc, Bool.true_eq_false, if_false]
  rw [if_neg hw]

lemma stop_capture_stopped (env : StopEnv) (st : Transcriber) (hrun : st.running_ = false) :
    stop_capture env st = some (true, st, []) := by
  unfold stop_capture
  simp [hrun]

/-- The first `get()` of `stop_capture` does not return when the
transcription task waits and the capture task has spent its last
notification. -/
lemma stop_capture_blocked (env : StopEnv) (st : Transcriber) (hrun : st.running_ = true)
    (ht : st.res_trans_ = some true) (hw : env.consumer_waiting = true)
    (hn : env.capture_notified = true) : stop_capture env st = none := by
  unfold stop_capture
  simp [hrun, ht, hw, hn]

lemma stop_capture_result_stopped (env : StopEnv) (st st1 : Transcriber) (ret : Bool)
    (ev : List StopEvent) (h : stop_capture env st = some (ret, st1, ev)) :
    st1.running_ = false := by
  unfold stop_capture at h
  by_cases hrun : st.running_ = false
  · rw [if_pos hrun] at h
    injection h with h
    injection h with h1 h2
    injection h2 with h2 h3
    rw [← h2]
    exact hrun
  · rw [if_neg hrun] at h
    dsimp only at h
    split at h
    · exact absurd h (by simp)
    · split at h
      · exact absurd h (by simp)
      · split at h
        · exact absurd h (by simp)
        · injection h with h
          injection h with h1 h2
          injection h2 with h2 h3
          rw [← h2]

/-- Both futures are valid while the pipeline runs: `start_capture` assigns
them before it returns with `running_` set, and hands back a pipeline that
was already running as it is. -/
lemma start_capture_futures (config : Config) (env : StartEnv) (st : Transcriber)
    (h : st.running_ = true → st.res_trans_.isSome = true ∧ st.res_capts_.isSome = true) :
    (start_capture config env st).2.running_ = true →
      (start_capture config env st).2.res_trans_.isSome = true ∧
      (start_capture config env st).2.res_capts_.isSome = true := by
  unfold start_capture
  by_cases hrun : st.running_ = true
  · rw [if_pos hrun]
    exact h
  · rw [if_neg hrun]
    rw [Bool.not_eq_true] at hrun
    by_cases ho : env.open_ok = false
    · rw [if_pos ho]
      intro hr
      have hr2 : st.running_ = true := hr
      rw [hrun] at hr2
      exact absurd hr2 Bool.false_ne_true
    · rw [if_neg ho]
      dsimp only
      split
      · intro hr
        exact absurd (show false = true from hr) Bool.false_ne_true
      · intro _
        exact ⟨rfl, rfl⟩

/-- C11. A `stop_capture` on a pipeline that is not running returns true,
changes nothing, joins nothing and closes nothing.  Whenever a first
`stop_capture` has returned, a second one (or a `terminate`) on the state it
left returns true, leaves that state as it is and makes no join and no close:
the two futures are not touched again and the audio source is not closed
again.  The first call does return on every pipeline whose two futures are
valid while it runs (as `start_capture` leaves them), unless the
transcription task is blocked in its wait after the capture task has made
its last notification. -/
theorem C11_stop_idempotent (st : Transcriber) (env env1 : StopEnv) :
    (st.running_ = false → stop_capture env st = some (true, st, [])) ∧
    ((st.running_ = true → st.res_trans_.isSome = true ∧ st.res_capts_.isSome = true) →
      ¬ (st.res_trans_ = some true ∧ env.consumer_waiting = true ∧
        env.capture_notified = true) →
      ∃ ret st1 ev, stop_capture env st = some (ret, st1, ev) ∧
        stop_capture env1 st1 = some (true, st1, []) ∧
        terminate env1 st1 = some (true, st1, [])) ∧
    (∀ ret st1 ev, stop_capture env st = some (ret, st1, ev) →
      stop_capture env1 st1 = some (true, st1, []) ∧
      terminate env1 st1 = some (true, st1, [])) := by
  refine ⟨stop_capture_stopped env st, ?_, ?_⟩
  · intro hfut hwake
    by_cases hrun : st.running_ = true
    · obtain ⟨ht, hc⟩ := hfut hrun
      obtain ⟨a, ha⟩ := Option.isSome_iff_exists.1 ht
      obtain ⟨b, hb⟩ := Option.isSome_iff_exists.1 hc
      have hw : ¬ (a = true ∧ env.consumer_waiting = true ∧ env.capture_notified = true) := by
        intro h
        apply hwake
        rw [ha, h.1]
        exact ⟨rfl, h.2⟩
      refine ⟨b, { st with running_ := false, res_trans_ := none, res_capts_ := none },
        [StopEvent.join_trans, StopEvent.join_capts, StopEvent.close_capture],
        stop_capture_running env st a b hrun ha hb hw, ?_, ?_⟩
      · exact stop_capture_stopped env1 _ rfl
      · exact stop_capture_stopped env1 _ rfl
    · rw [Bool.not_eq_true] at hrun
      exact ⟨true, st, [], stop_capture_stopped env st hrun, stop_capture_stopped env1 st hrun,
        stop_capture_stopped env1 st hrun⟩
  · intro ret st1 ev h
    have h1 := stop_capture_result_stopped env st st1 ret ev h
    exact ⟨stop_capture_stopped env1 st1 h1, stop_capture_stopped env1 st1 h1⟩

/-- Witness of C11: the started one second pipeline, which runs with both
futures valid, stopped while its capture task is still in its loop and its
transcription task waits.  The first `stop_capture` returns; the second
returns true and does nothing. -/
theorem C11_stop_idempotent_witness :
    (started_one.running_ = true ∧ started_one.res_trans_.isSome = true ∧
      started_one.res_capts_.isSome = true) ∧
    ¬ (started_one.res_trans_ = some true ∧ (StopEnv.mk false true).consumer_waiting = true ∧
      (StopEnv.mk false true).capture_notified = true) ∧
    (∃ ret st1 ev, stop_capture (StopEnv.mk false true) started_one = some (ret, st1, ev) ∧
      stop_capture (StopEnv.mk true true) st1 = some (true, st1, []) ∧
      terminate (StopEnv.mk true true) st1 = some (true, st1, [])) :=
  ⟨⟨rfl, rfl, rfl⟩, fun h => Bool.false_ne_true h.2.2,
    (C11_stop_idempotent started_one (StopEnv.mk false true) (StopEnv.mk true true)).2.1
      (fun _ => ⟨rfl, rfl⟩) (fun h => Bool.false_ne_true h.2.2)⟩

/-- C12, the code at the failing input.  The pipeline was started (result
true, running) with a transcription task that returns false and a capture
task that returns true; `stop_capture` and `terminate` join both and return
true: the value of the first `get()` is overwritten by the second. -/
theorem C12_stop_drops_transcription_failure :
    (start_capture ⟨1, 4, 1, 1 / 1000⟩ ⟨true, 2, fun _ => 0, false, true⟩ (initial 0)).1 = true ∧
    started_late_failure.running_ = true ∧
    started_late_failure.res_trans_ = some false ∧
    started_late_failure.res_capts_ = some true ∧
    (∀ env : StopEnv,
      stop_capture env started_late_failure =
        some (true,
          { started_late_failure with running_ := false, res_trans_ := none, res_capts_ := none },
          [StopEvent.join_trans, StopEvent.join_capts, StopEvent.close_capture]) ∧
      terminate env started_late_failure = stop_capture env started_late_failure) :=
  ⟨rfl, rfl, rfl, rfl, fun env =>
    ⟨stop_capture_running env started_late_failure false true rfl rfl rfl
      (fun h => Bool.false_ne_true h.1), rfl⟩⟩

/-! ### Read errors -/

lemma capture_iter_read_error (st : Transcriber) (r : ReadResult) (hrun : st.running_ = true)
    (hr : r.ret < 0) : capture_iter st r = (store_read st r, Outcome.exited) := by
  unfold capture_iter
  simp [hrun, hr]

/-- C13, the code at the failing input.  On the running pipeline `lapped` a
read returns `-EIO`.  The turn leaves the loop without appending and without
rotating (staged samples, silence count, offset, slot index, counter and
output buffers are as before) and the loop is over; but `running_` is still
true afterwards, and `get_text` and `clear_text` still succeed. -/
theorem C13_read_error_leaves_running :
    lapped.running_ = true ∧ read_error.ret < 0 ∧
    capture_iter lapped read_error = (store_read lapped read_error, Outcome.exited) ∧
    capture_run lapped [read_error, loud_chunk] = store_read lapped read_error ∧
    (store_read lapped read_error).tmp_buf_ = lapped.tmp_buf_ ∧
    (store_read lapped read_error).silence_samples_ = lapped.silence_samples_ ∧
    (store_read lapped read_error).buffer_offset_ = lapped.buffer_offset_ ∧
    (store_read lapped read_error).file_id_ = lapped.file_id_ ∧
    (store_read lapped read_error).file_counter_ = lapped.file_counter_ ∧
    (store_read lapped read_error).output_bufs_ = lapped.output_bufs_ ∧
    (store_read lapped read_error).running_ = true ∧
    get_text (store_read lapped read_error) "" = (true, "hello\n") ∧
    (clear_text (store_read lapped read_error)).1 = true := by
  have h := capture_iter_read_error lapped read_error rfl (by decide)
  refine ⟨rfl, by decide, h, ?_, rfl, rfl, rfl, rfl, rfl, rfl, rfl, rfl, rfl⟩
  rw [capture_run, h]

/-! ### Text access -/

/-- C10. `get_text` and `clear_text` return false exactly when the running
flag is false.  On failure `get_text` leaves the caller's string and
`clear_text` leaves the pipeline (hence the accumulated text) unchanged; on
success `get_text` yields the accumulated text, and a successful `clear_text`
followed by `get_text` yields the empty string. -/
theorem C10_text_access (st : Transcriber) (out : String) :
    ((get_text st out).1 = false ↔ st.running_ = false) ∧
    ((clear_text st).1 = false ↔ st.running_ = false) ∧
    (st.running_ = false →
      (get_text st out).2 = out ∧ (clear_text st).2 = st ∧
      (clear_text st).2.whisper_.output_text_ = st.whisper_.output_text_) ∧
    (st.running_ = true →
      get_text st out = (true, st.whisper_.output_text_) ∧
      (clear_text st).1 = true ∧ get_text (clear_text st).2 out = (true, "")) := by
  unfold get_text clear_text
  cases h : st.running_ <;> simp [h, Whisper.get_text, Whisper.clear_text]

/-- Witness of C10: the lapped pipeline, whose accumulated text is not
empty. -/
theorem C10_text_access_witness :
    ((get_text lapped "old").1 = false ↔ lapped.running_ = false) ∧
    ((clear_text lapped).1 = false ↔ lapped.running_ = false) ∧
    (lapped.running_ = false →
      (get_text lapped "old").2 = "old" ∧ (clear_text lapped).2 = lapped ∧
      (clear_text lapped).2.whisper_.output_text_ = lapped.whisper_.output_text_) ∧
    (lapped.running_ = true →
      get_text lapped "old" = (true, lapped.whisper_.output_text_) ∧
      (clear_text lapped).1 = true ∧ get_text (clear_text lapped).2 "old" = (true, "")) :=
  C10_text_access lapped "old"

end WhisperAlsa
